import Mathlib

/-!
# Fiber core of `sylar::Fiber` (src/fiber.h, src/fiber.cpp)

A shallow embedding of the fiber runtime: the `Fiber` object, the three
thread-local registers, the two process-wide counters, the shared-stack
descriptors and byte memory.  Pointers are natural numbers, `0` is `nullptr`.
Machine integers are reduced modulo their width where the source narrows.
A failed `assert`, a dereference of a null or dead pointer and a call of an
empty `std::function` are modelled as `none`.
-/

namespace sylar

/-- The enum `Fiber::State`. -/
inductive FState where
  | READY
  | RUNNING
  | TERM
  deriving DecidableEq, Repr

/-- A pointer; `0` is `nullptr`. -/
abbrev Ptr := Nat

/-- Conversion of a value to `unsigned int` / `uint32_t`. -/
def toU32 (n : Nat) : Nat := n % 4294967296

/-- Conversion of a value to `uint64_t` / `size_t`. -/
def toU64 (n : Nat) : Nat := n % 18446744073709551616

/-- Conversion of an integer to `int` (two's complement, 32 bits). -/
def toI32 (z : Int) : Int := (z + 2147483648) % 4294967296 - 2147483648

/-- Conversion of an `int` to `size_t` (sign extension to 64 bits). -/
def intToSize (z : Int) : Nat := (z % 18446744073709551616).toNat

/-- The struct `Fiber::stStackMem_t`. -/
structure stStackMem_t where
  occupy_co : Ptr
  stack_size : Int
  stack_bp : Nat
  stack_buffer : Nat

/-- Where a saved machine context continues when it is restored. -/
inductive Pc where
  | captured
  | MainFunc
  | swapped
  deriving DecidableEq, Repr

/-- The part of `ucontext_t` the runtime writes. -/
structure ucontext_t where
  uc_link : Ptr
  ss_sp : Nat
  ss_size : Nat
  pc : Pc

/-- The class `Fiber`.  `save_buffer` is the content of the heap block it
points to (`none` is `nullptr`); `m_cb` is the stored callable (`none` is the
empty `std::function`). -/
structure Fiber where
  cIsShareStack : Bool
  stack_mem : Ptr
  stack_sp : Nat
  save_size : Nat
  save_buffer : Option (List Nat)
  pending_co : Ptr
  occupy_co : Ptr
  m_id : Nat
  m_stacksize : Nat
  m_state : FState
  m_ctx : ucontext_t
  m_stack : Ptr
  m_cb : Option Nat
  m_runInScheduler : Bool

/-- The state of one thread of the runtime together with the process-wide
counters.  Two fields record what the code did rather than what it stores:
`on_cpu` is the fiber whose `m_ctx` the last `swapcontext` restored, and
`copy_outs` counts the calls of `save_stack_buffer`. -/
structure World where
  fibers : Ptr → Option Fiber
  stackmems : Ptr → Option stStackMem_t
  mem : Nat → Nat
  t_fiber : Ptr
  t_thread_fiber : Ptr
  t_scheduler_fiber : Ptr
  s_fiber_id : Nat
  s_fiber_count : Nat
  on_cpu : Ptr
  copy_outs : Nat

/-- Thread start: no fiber, all registers null, both counters zero. -/
def World.init : World where
  fibers := fun _ => none
  stackmems := fun _ => none
  mem := fun _ => 0
  t_fiber := 0
  t_thread_fiber := 0
  t_scheduler_fiber := 0
  s_fiber_id := 0
  s_fiber_count := 0
  on_cpu := 0
  copy_outs := 0

/-- Store a fiber object at an address. -/
def World.setFiber (s : World) (p : Ptr) (f : Fiber) : World :=
  { s with fibers := fun q => if q = p then some f else s.fibers q }

/-- Store a stack descriptor at an address. -/
def World.setStackMem (s : World) (m : Ptr) (d : stStackMem_t) : World :=
  { s with stackmems := fun q => if q = m then some d else s.stackmems q }

/-- The default member initialisers of fiber.h applied to raw storage. -/
def memberInit (raw : Fiber) : Fiber :=
  { raw with m_id := 0, m_stacksize := 0, m_state := FState.READY, m_stack := 0, m_cb := none }

/-- The static member `Fiber::SetThis`. -/
def SetThis (s : World) (f : Ptr) : World := { s with t_fiber := f }

/-- The static member `Fiber::SetSchedulerFiber`. -/
def SetSchedulerFiber (s : World) (f : Ptr) : World := { s with t_scheduler_fiber := f }

/-- The call `getcontext(&m_ctx)`: captures the calling context. -/
def getcontext (c : ucontext_t) : ucontext_t := { c with pc := Pc.captured }

/-- The call `makecontext(&m_ctx, &Fiber::MainFunc, 0)`. -/
def makecontext (c : ucontext_t) : ucontext_t := { c with pc := Pc.MainFunc }

/-- The private constructor `Fiber::Fiber()` run on fresh storage at `p`. -/
def Fiber_main (s : World) (p : Ptr) (raw : Fiber) : World :=
  let s1 := SetThis s p
  let f : Fiber :=
    { memberInit raw with
      m_state := FState.RUNNING, cIsShareStack := false, stack_sp := 0, save_size := 0,
      save_buffer := none, pending_co := 0, occupy_co := 0, stack_mem := 0,
      m_ctx := getcontext raw.m_ctx, m_id := s.s_fiber_id }
  { s1.setFiber p f with
    s_fiber_id := toU64 (s.s_fiber_id + 1), s_fiber_count := toU64 (s.s_fiber_count + 1) }

/-- The static member `Fiber::GetThis`: returns the current fiber, creating the thread-root
fiber at the fresh address `p` when there is none. -/
def GetThis (s : World) (p : Ptr) (raw : Fiber) : Option (World × Ptr) :=
  if s.t_fiber ≠ 0 then some (s, s.t_fiber)
  else if p = 0 ∨ (s.fibers p).isSome then none
  else
    let s1 := Fiber_main s p raw
    let s2 := { s1 with t_thread_fiber := p, t_scheduler_fiber := p }
    if s2.t_fiber = p then some (s2, s2.t_fiber) else none

/-- The static member `Fiber::GetFiberId`. -/
def GetFiberId (s : World) : Option Nat :=
  if s.t_fiber ≠ 0 then (s.fibers s.t_fiber).map (fun f => f.m_id) else some 18446744073709551615

/-- The member `Fiber::co_alloc_stackmem(unsigned int stack_size)`: the descriptor is
placed at the fresh address `m`, its buffer at `buf`. -/
def co_alloc_stackmem (s : World) (m buf : Ptr) (stack_size : Nat) : World :=
  s.setStackMem m
    { occupy_co := 0, stack_size := toI32 (toU32 stack_size), stack_buffer := buf,
      stack_bp := buf + toU32 stack_size }

/-- Arguments of the worker constructor and the addresses its allocations
return: the object at `p`, the private stack at `stk`, the descriptor of a
shared stack at `m` with its buffer at `buf`. -/
structure NewArgs where
  p : Ptr
  raw : Fiber
  cb : Option Nat
  stacksize : Nat
  run_in_scheduler : Bool
  share_stack : Bool
  stk : Ptr
  m : Ptr
  buf : Ptr

/-- The constructor `Fiber::Fiber(cb, stacksize, run_in_scheduler, share_stack)`.
The allocations succeed: each returns a non-null address that is not live. -/
def Fiber_cb (s : World) (a : NewArgs) : Option World :=
  if a.p = 0 ∨ (s.fibers a.p).isSome then none
  else if a.share_stack = false ∧ a.stk = 0 then none
  else if a.share_stack = true ∧ (a.m = 0 ∨ (s.stackmems a.m).isSome ∨ a.buf = 0) then none
  else
    let f0 : Fiber :=
      { memberInit a.raw with
        m_cb := a.cb, m_runInScheduler := a.run_in_scheduler, cIsShareStack := a.share_stack }
    let f1 := { f0 with m_state := FState.READY }
    let f2 := { f1 with m_stacksize := toU32 (if a.stacksize ≠ 0 then a.stacksize else 128000) }
    let s1 := if f2.cIsShareStack then co_alloc_stackmem s a.m a.buf f2.m_stacksize else s
    let f3 : Fiber :=
      if f2.cIsShareStack then { f2 with m_stack := 0, stack_mem := a.m }
      else { f2 with m_stack := a.stk }
    let c1 := { getcontext f3.m_ctx with uc_link := 0 }
    match (if f3.cIsShareStack then
        (s1.stackmems f3.stack_mem).map
          (fun d => { c1 with ss_sp := d.stack_buffer, ss_size := intToSize d.stack_size })
      else some { c1 with ss_sp := f3.m_stack, ss_size := f3.m_stacksize }) with
    | none => none
    | some c2 =>
      let f4 := { f3 with m_ctx := makecontext c2, m_id := s.s_fiber_id }
      some { s1.setFiber a.p f4 with
        s_fiber_id := toU64 (s.s_fiber_id + 1), s_fiber_count := toU64 (s.s_fiber_count + 1) }

/-- The destructor `Fiber::~Fiber` followed by the release of the object. -/
def Fiber_dtor (s : World) (p : Ptr) : Option World :=
  match s.fibers p with
  | none => none
  | some _ =>
    some { s with
      s_fiber_count := toU64 (s.s_fiber_count + 18446744073709551615),
      fibers := fun q => if q = p then none else s.fibers q }

/-- Apply a sequence of member writes to the object at `p`; `none` when `p`
is null or not a live fiber. -/
def World.modFiber (s : World) (p : Ptr) (g : Fiber → Fiber) : Option World :=
  if p = 0 then none
  else match s.fibers p with
    | none => none
    | some f => some (s.setFiber p (g f))

/-- The call `swapcontext(&a->m_ctx, &b->m_ctx)`: the running context is saved in
`a->m_ctx` and the context stored in `b->m_ctx` is restored. -/
def swapcontext (s : World) (a b : Ptr) : Option World :=
  match s.modFiber a (fun f => { f with m_ctx := { f.m_ctx with pc := Pc.swapped } }) with
  | none => none
  | some s1 =>
    if b = 0 ∨ (s1.fibers b).isNone then none else some { s1 with on_cpu := b }

/-- A `memcpy` from the bytes `src` of a heap block to address `dst`, `n` bytes. -/
def memcpyIn (mem : Nat → Nat) (dst : Nat) (src : List Nat) (n : Nat) : Nat → Nat :=
  fun a => if dst ≤ a ∧ a < dst + n then src.getD (a - dst) 0 else mem a

/-- The `n` bytes of memory starting at `src`, as `memcpy` writes them to a
fresh heap block. -/
def memcpyOut (mem : Nat → Nat) (src : Nat) (n : Nat) : List Nat :=
  (List.range n).map (fun i => mem (src + i))

/-- The member `Fiber::save_stack_buffer(occupy_co)`.  `len` is an `int`; a negative
`len` makes `malloc` and `memcpy` receive a size above `2^63`, which fails. -/
def save_stack_buffer (s : World) (occupy_co : Ptr) : Option World :=
  if occupy_co = 0 then none
  else match s.fibers occupy_co with
    | none => none
    | some f =>
      match s.stackmems f.stack_mem with
      | none => none
      | some stack_mem =>
        let len : Int := toI32 ((stack_mem.stack_bp : Int) - (f.stack_sp : Int))
        if len < 0 then none
        else
          some { s.setFiber occupy_co
              { f with
                save_buffer := some (memcpyOut s.mem f.stack_sp len.toNat),
                save_size := toU32 len.toNat } with
            copy_outs := s.copy_outs + 1 }

/-- The test `occupy_co && occupy_co != pending_co` of `co_swap` that guards
the call of `save_stack_buffer`. -/
def copyOutCond (occupy_co pending_co : Ptr) : Bool :=
  occupy_co ≠ 0 ∧ occupy_co ≠ pending_co

/-- The member `Fiber::co_swap` up to the call of `swapcontext`; `c` is the address of
the local variable `c`. -/
def co_swap_pre (s : World) (curr pending_co c : Ptr) : Option World :=
  let env := s.t_fiber
  match s.modFiber curr (fun f => { f with stack_sp := c }) with
  | none => none
  | some s1 =>
    if pending_co = 0 then none
    else match s1.fibers pending_co with
      | none => none
      | some pf =>
        if pf.cIsShareStack = false then
          s1.modFiber env (fun e => { e with pending_co := 0, occupy_co := 0 })
        else
          match s1.modFiber env (fun e => { e with pending_co := pending_co }) with
          | none => none
          | some s2 =>
            match s2.stackmems pf.stack_mem with
            | none => none
            | some d =>
              let occupy_co := d.occupy_co
              let s3 := s2.setStackMem pf.stack_mem { d with occupy_co := pending_co }
              match s3.modFiber env (fun e => { e with occupy_co := occupy_co }) with
              | none => none
              | some s4 =>
                if copyOutCond occupy_co pending_co then save_stack_buffer s4 occupy_co
                else some s4

/-- The member `Fiber::co_swap` after `swapcontext` has returned in the frame of `curr`. -/
def co_swap_post (s : World) : Option World :=
  let curr_env := s.t_fiber
  if curr_env = 0 then none
  else match s.fibers curr_env with
    | none => none
    | some e =>
      let update_occupy_co := e.occupy_co
      let update_pending_co := e.pending_co
      if update_occupy_co ≠ 0 ∧ update_pending_co ≠ 0 ∧ update_occupy_co ≠ update_pending_co then
        match s.fibers update_pending_co with
        | none => none
        | some pf =>
          match pf.save_buffer with
          | none => some s
          | some buf =>
            if pf.save_size > 0 then
              some { s with mem := memcpyIn s.mem pf.stack_sp buf pf.save_size }
            else some s
      else some s

/-- The member `Fiber::co_swap` through the context switch. -/
def co_swap (s : World) (curr pending_co c : Ptr) : Option World :=
  (co_swap_pre s curr pending_co c).bind (fun s1 => swapcontext s1 curr pending_co)

/-- The member `Fiber::resume` up to the context switch: the state in which
`swapcontext` is called and its two arguments (saved fiber, restored fiber). -/
def resume_pre (s : World) (p c : Ptr) : Option (World × Ptr × Ptr) :=
  if p = 0 then none
  else match s.fibers p with
    | none => none
    | some f =>
      if f.m_state ≠ FState.READY then none
      else
        let s1 := s.setFiber p { f with m_state := FState.RUNNING }
        if f.cIsShareStack then
          (co_swap_pre s1 s1.t_fiber p c).map (fun s2 => (s2, s1.t_fiber, p))
        else if f.m_runInScheduler then
          some (SetThis s1 p, s1.t_scheduler_fiber, p)
        else
          some (SetThis s1 p, s1.t_thread_fiber, p)

/-- The member `Fiber::resume`. -/
def resume (s : World) (p c : Ptr) : Option World :=
  (resume_pre s p c).bind (fun r => swapcontext r.1 r.2.1 r.2.2)

/-- The member `Fiber::yield` up to the context switch: the state in which
`swapcontext` is called and its two arguments (saved fiber, restored fiber). -/
def yield_pre (s : World) (p c : Ptr) : Option (World × Ptr × Ptr) :=
  if p = 0 then none
  else match s.fibers p with
    | none => none
    | some f =>
      if f.m_state ≠ FState.RUNNING ∧ f.m_state ≠ FState.TERM then none
      else
        let s1 :=
          if f.m_state ≠ FState.TERM then s.setFiber p { f with m_state := FState.READY } else s
        if f.cIsShareStack then
          (co_swap_pre s1 p s1.t_fiber c).map (fun s2 => (s2, p, s1.t_fiber))
        else if f.m_runInScheduler then
          some (SetThis s1 s1.t_scheduler_fiber, p, s1.t_scheduler_fiber)
        else
          some (SetThis s1 s1.t_thread_fiber, p, s1.t_thread_fiber)

/-- The member `Fiber::yield`. -/
def yield (s : World) (p c : Ptr) : Option World :=
  (yield_pre s p c).bind (fun r => swapcontext r.1 r.2.1 r.2.2)

/-- The member `Fiber::reset`. -/
def reset (s : World) (p : Ptr) (cb : Option Nat) : Option World :=
  if p = 0 then none
  else match s.fibers p with
    | none => none
    | some f =>
      if ¬ (f.m_stack ≠ 0 ∧ f.m_state = FState.TERM) then none
      else
        let f1 := { f with m_state := FState.READY, m_cb := cb }
        let c1 := { getcontext f1.m_ctx with uc_link := 0 }
        match (if f1.cIsShareStack then
            (s.stackmems f1.stack_mem).map
              (fun d => { c1 with ss_sp := d.stack_buffer, ss_size := intToSize d.stack_size })
          else some { c1 with ss_sp := f1.m_stack, ss_size := f1.m_stacksize }) with
        | none => none
        | some c2 => some (s.setFiber p { f1 with m_ctx := makecontext c2 })

/-- The trampoline `Fiber::MainFunc` from the return of the entry callable on: the handle
`curr` is the one `GetThis()` gives, the callable must be non-empty to have
been called, then `m_cb` is cleared, the state is `TERM` and the fiber yields.
The calls the callable itself makes into the runtime are steps of their own. -/
def MainFunc (s : World) (p : Ptr) (raw : Fiber) (c : Ptr) : Option World :=
  match GetThis s p raw with
  | none => none
  | some (s1, curr) =>
    if curr = 0 then none
    else match s1.fibers curr with
      | none => none
      | some f =>
        match f.m_cb with
        | none => none
        | some _ =>
          let s2 := s1.setFiber curr { f with m_cb := none, m_state := FState.TERM }
          yield s2 curr c

/-- One call into the runtime (or one return into `co_swap`). -/
inductive Op where
  | GetThis (p : Ptr) (raw : Fiber)
  | SetSchedulerFiber (f : Ptr)
  | construct (a : NewArgs)
  | resume (p c : Ptr)
  | yield (p c : Ptr)
  | MainFunc (p : Ptr) (raw : Fiber) (c : Ptr)
  | reset (p : Ptr) (cb : Option Nat)
  | destroy (p : Ptr)
  | co_swap_return

/-- The effect of one operation; `none` when the call aborts. -/
def step (s : World) : Op → Option World
  | Op.GetThis p raw => (GetThis s p raw).map Prod.fst
  | Op.SetSchedulerFiber f => some (SetSchedulerFiber s f)
  | Op.construct a => Fiber_cb s a
  | Op.resume p c => resume s p c
  | Op.yield p c => yield s p c
  | Op.MainFunc p raw c => MainFunc s p raw c
  | Op.reset p cb => reset s p cb
  | Op.destroy p => Fiber_dtor s p
  | Op.co_swap_return => co_swap_post s

/-- The states a thread reaches from its start by operations satisfying `ok`. -/
inductive ReachBy (ok : Op → Prop) : World → Prop where
  | init : ReachBy ok World.init
  | step {s s' : World} (o : Op) : ReachBy ok s → ok o → step s o = some s' → ReachBy ok s'

/-- Every operation except the destructor. -/
def Op.noDestroy : Op → Prop
  | Op.destroy _ => False
  | _ => True

/-- The operations `GetThis`, construction, `resume` and `yield` (and the
return into `co_swap`). -/
def Op.switching : Op → Prop
  | Op.GetThis _ _ => True
  | Op.construct _ => True
  | Op.resume _ _ => True
  | Op.yield _ _ => True
  | Op.co_swap_return => True
  | _ => False

/-- The members of a fiber that the shared-stack bookkeeping and the context
switch never write. -/
structure Core where
  cIsShareStack : Bool
  stack_mem : Ptr
  m_id : Nat
  m_stacksize : Nat
  m_state : FState
  m_stack : Ptr
  m_cb : Option Nat
  m_runInScheduler : Bool

/-- Projection of a fiber onto `Core`. -/
def Fiber.core (f : Fiber) : Core :=
  { cIsShareStack := f.cIsShareStack, stack_mem := f.stack_mem, m_id := f.m_id,
    m_stacksize := f.m_stacksize, m_state := f.m_state, m_stack := f.m_stack,
    m_cb := f.m_cb, m_runInScheduler := f.m_runInScheduler }

/-- Two states agree on the registers, the counters and the `Core` of every
fiber. -/
def SameCore (s s' : World) : Prop :=
  s'.t_fiber = s.t_fiber ∧ s'.t_thread_fiber = s.t_thread_fiber ∧
  s'.t_scheduler_fiber = s.t_scheduler_fiber ∧ s'.s_fiber_id = s.s_fiber_id ∧
  s'.s_fiber_count = s.s_fiber_count ∧
  ∀ q, (s'.fibers q).map Fiber.core = (s.fibers q).map Fiber.core

/-- Raw storage with every byte zero, used for concrete runs. -/
def rawFiber : Fiber where
  cIsShareStack := false
  stack_mem := 0
  stack_sp := 0
  save_size := 0
  save_buffer := none
  pending_co := 0
  occupy_co := 0
  m_id := 0
  m_stacksize := 0
  m_state := FState.READY
  m_ctx := { uc_link := 0, ss_sp := 0, ss_size := 0, pc := Pc.captured }
  m_stack := 0
  m_cb := none
  m_runInScheduler := false

/-- Arguments of a concrete private-stack worker at address 2 with its
stack at 4096. -/
def privateArgs (stacksize : Nat) (run_in_scheduler : Bool) : NewArgs where
  p := 2
  raw := rawFiber
  cb := some 7
  stacksize := stacksize
  run_in_scheduler := run_in_scheduler
  share_stack := false
  stk := 4096
  m := 0
  buf := 0

/-- Arguments of a concrete shared-stack worker at address `p` whose
descriptor is at `m` and whose stack buffer is at `buf`. -/
def sharedArgs (p m buf stacksize : Nat) : NewArgs where
  p := p
  raw := rawFiber
  cb := some 7
  stacksize := stacksize
  run_in_scheduler := true
  share_stack := true
  stk := 0
  m := m
  buf := buf

/-- Run a list of operations in order; `none` as soon as one aborts. -/
def run (s : World) : List Op → Option World
  | [] => some s
  | o :: os => (step s o).bind (fun s1 => run s1 os)

/-- The state after a concrete run from thread start (thread start itself
when the run aborts). -/
def runD (ops : List Op) : World := (run World.init ops).getD World.init

/-- The fiber stored at `p` in a state (raw storage when there is none). -/
def fiberAt (s : World) (p : Ptr) : Fiber := (s.fibers p).getD rawFiber

/-- Thread-root at address 1, then a private worker at address 2 that was
resumed and whose entry callable returned. -/
def termWorld : World :=
  runD [Op.GetThis 1 rawFiber, Op.construct (privateArgs 0 true), Op.resume 2 0,
    Op.MainFunc 0 rawFiber 0]

/-- Arguments of a concrete private-stack worker at address `p` with its
stack at `stk`. -/
def workerArgs (p stk : Nat) (run_in_scheduler : Bool) : NewArgs where
  p := p
  raw := rawFiber
  cb := some 7
  stacksize := 0
  run_in_scheduler := run_in_scheduler
  share_stack := false
  stk := stk
  m := 0
  buf := 0

/-- Thread-root at 1, a scheduler fiber at 3 designated with
`SetSchedulerFiber`, and a scheduler-managed private worker at 2 that has been
resumed. -/
def schedWorld : World :=
  runD [Op.GetThis 1 rawFiber, Op.construct (workerArgs 3 8192 false), Op.SetSchedulerFiber 3,
    Op.construct (workerArgs 2 4096 true), Op.resume 2 0]

/-- Thread-root at 1 and a shared-stack worker at 2 (descriptor at 500,
stack buffer at 4096, default size) in state READY. -/
def sharedWorld : World :=
  runD [Op.GetThis 1 rawFiber, Op.construct (sharedArgs 2 500 4096 0)]

/-- The address of the fiber an operation constructs, when it constructs
one: `GetThis` on a thread without a fiber, and the worker constructor. -/
def constructed (s : World) : Op → Option Ptr
  | Op.GetThis p _ => if s.t_fiber = 0 then some p else none
  | Op.construct a => some a.p
  | _ => none

/-- The ids given to the fibers constructed along a run, in order of
construction (fibers destroyed later included). -/
def assignedIds (s : World) : List Op → List Nat
  | [] => []
  | o :: os =>
    match step s o with
    | none => []
    | some s1 =>
      (match constructed s o with
        | some p => [(fiberAt s1 p).m_id]
        | none => []) ++ assignedIds s1 os

/-- Every live fiber has an id below the id counter, and two live fibers at
different addresses have different ids. -/
def IdsFresh (s : World) : Prop :=
  (∀ p f, s.fibers p = some f → f.m_id < s.s_fiber_id) ∧
  ∀ p q f g, p ≠ q → s.fibers p = some f → s.fibers q = some g → f.m_id ≠ g.m_id

/-- A run that constructs a worker at address 2 and destroys it, `n` times. -/
def cycles : Nat → List Op
  | 0 => []
  | n + 1 => Op.construct (workerArgs 2 4096 true) :: Op.destroy 2 :: cycles n

/-- Thread-root, then two workers built at the same address, the first one
destroyed before the second is built. -/
def reuseOps : List Op :=
  [Op.GetThis 1 rawFiber, Op.construct (workerArgs 2 4096 true), Op.destroy 2,
    Op.construct (workerArgs 2 4096 true)]

/-- The members no operation writes after construction. -/
def Core.fixed (c : Core) : Bool × Ptr × Ptr × Nat × Nat × Bool :=
  (c.cIsShareStack, c.stack_mem, c.m_stack, c.m_id, c.m_stacksize, c.m_runInScheduler)

/-- Thread-root at 1, a private worker at 2, and the thread-root resuming
the worker. -/
def resumeOps : List Op :=
  [Op.GetThis 1 rawFiber, Op.construct (workerArgs 2 4096 true), Op.resume 2 0]

/-- Every live shared-stack fiber has a descriptor whose occupant is null or
that fiber; two shared-stack fibers never have the same descriptor; and
`save_stack_buffer` has not been called. -/
def OwnStackMem (s : World) : Prop :=
  (∀ p f, s.fibers p = some f → f.cIsShareStack = true →
    ∃ d, s.stackmems f.stack_mem = some d ∧ (d.occupy_co = 0 ∨ d.occupy_co = p)) ∧
  (∀ p q f g, s.fibers p = some f → s.fibers q = some g → f.cIsShareStack = true →
    g.cIsShareStack = true → f.stack_mem = g.stack_mem → p = q) ∧
  s.copy_outs = 0

/-- Thread-root at 1 and two shared-stack workers at 2 and 3, each resumed
and suspended in turn. -/
def pingPongOps : List Op :=
  [Op.GetThis 1 rawFiber, Op.construct (sharedArgs 2 500 4096 0),
    Op.construct (sharedArgs 3 600 200000 0), Op.resume 2 9000, Op.yield 2 4200,
    Op.resume 3 9000, Op.yield 3 200100, Op.resume 2 9000]

/-- The descriptor stored at `m` in a state (all-zero when there is none). -/
def stackMemAt (s : World) (m : Ptr) : stStackMem_t :=
  (s.stackmems m).getD { occupy_co := 0, stack_size := 0, stack_bp := 0, stack_buffer := 0 }

/-- Thread-root at 1 and a shared-stack worker at 2 (buffer at 4096, default
size, so `stack_bp = 132096`) that ran and yielded with its stack pointer at
132000; memory holds the byte `a % 251` at address `a`. -/
def suspendedWorld : World :=
  { runD [Op.GetThis 1 rawFiber, Op.construct (sharedArgs 2 500 4096 0), Op.resume 2 9000,
      Op.yield 2 132000] with
    mem := fun a => a % 251 }

/-- Thread-root at 1 and a shared-stack worker at 2 built with
`stacksize = 3000000000` (buffer at 4096) that ran and yielded with its stack
pointer at 500004096, i.e. with 2500000000 bytes of live stack. -/
def hugeStackOps : List Op :=
  [Op.GetThis 1 rawFiber, Op.construct (sharedArgs 2 500 4096 3000000000), Op.resume 2 9000,
    Op.yield 2 500004096]

/-! ## Proofs -/

theorem SameCore.refl (s : World) : SameCore s s :=
  ⟨rfl, rfl, rfl, rfl, rfl, fun _ => rfl⟩

theorem SameCore.trans {a b c : World} (hab : SameCore a b) (hbc : SameCore b c) :
    SameCore a c :=
  ⟨hbc.1.trans hab.1, hbc.2.1.trans hab.2.1, hbc.2.2.1.trans hab.2.2.1,
    hbc.2.2.2.1.trans hab.2.2.2.1, hbc.2.2.2.2.1.trans hab.2.2.2.2.1,
    fun q => (hbc.2.2.2.2.2 q).trans (hab.2.2.2.2.2 q)⟩

theorem modFiber_eq {s s' : World} {p : Ptr} {g : Fiber → Fiber}
    (h : s.modFiber p g = some s') :
    p ≠ 0 ∧ ∃ f, s.fibers p = some f ∧ s' = s.setFiber p (g f) := by
  unfold World.modFiber at h
  split at h
  · simp at h
  · rename_i hp
    split at h
    · simp at h
    · rename_i f hf
      exact ⟨hp, f, hf, by simpa using h.symm⟩

theorem setFiber_sameCore (s : World) (p : Ptr) (f g : Fiber) (hf : s.fibers p = some f)
    (hc : g.core = f.core) : SameCore s (s.setFiber p g) := by
  refine ⟨rfl, rfl, rfl, rfl, rfl, fun q => ?_⟩
  simp only [World.setFiber]
  by_cases hq : q = p
  · subst hq; simp [hf, hc]
  · simp [hq]

theorem modFiber_sameCore {s s' : World} {p : Ptr} {g : Fiber → Fiber}
    (h : s.modFiber p g = some s') (hg : ∀ f, (g f).core = f.core) : SameCore s s' := by
  obtain ⟨_, f, hf, rfl⟩ := modFiber_eq h
  exact setFiber_sameCore s p f (g f) hf (hg f)

theorem setStackMem_sameCore (s : World) (m : Ptr) (d : stStackMem_t) :
    SameCore s (s.setStackMem m d) :=
  ⟨rfl, rfl, rfl, rfl, rfl, fun _ => rfl⟩

theorem swapcontext_eq {s s' : World} {a b : Ptr} (h : swapcontext s a b = some s') :
    ∃ s1, s.modFiber a (fun f => { f with m_ctx := { f.m_ctx with pc := Pc.swapped } }) = some s1 ∧
      b ≠ 0 ∧ (s1.fibers b).isSome ∧ s' = { s1 with on_cpu := b } := by
  unfold swapcontext at h
  split at h
  · simp at h
  · rename_i s1 h1
    split at h
    · simp at h
    · rename_i hb
      simp only [not_or, Option.isNone_iff_eq_none] at hb
      refine ⟨s1, h1, hb.1, ?_, by simpa using h.symm⟩
      cases hx : s1.fibers b with
      | none => exact absurd hx hb.2
      | some _ => rfl

theorem swapcontext_sameCore {s s' : World} {a b : Ptr} (h : swapcontext s a b = some s') :
    SameCore s s' := by
  obtain ⟨s1, h1, _, _, rfl⟩ := swapcontext_eq h
  have := modFiber_sameCore h1 (fun _ => rfl)
  exact ⟨this.1, this.2.1, this.2.2.1, this.2.2.2.1, this.2.2.2.2.1, this.2.2.2.2.2⟩

theorem save_stack_buffer_sameCore {s s' : World} {p : Ptr} (h : save_stack_buffer s p = some s') :
    SameCore s s' := by
  unfold save_stack_buffer at h
  split at h
  · simp at h
  · split at h
    · simp at h
    · rename_i f hf
      split at h
      · simp at h
      · simp only at h
        split at h
        · simp at h
        · simp only [Option.some.injEq] at h
          subst h
          exact setFiber_sameCore s p f _ hf rfl

theorem co_swap_pre_sameCore {s s' : World} {curr pending c : Ptr}
    (h : co_swap_pre s curr pending c = some s') : SameCore s s' := by
  unfold co_swap_pre at h
  simp only at h
  split at h
  · simp at h
  · rename_i s1 h1
    have c1 : SameCore s s1 := modFiber_sameCore h1 (fun _ => rfl)
    split at h
    · simp at h
    · split at h
      · simp at h
      · rename_i pf hpf
        split at h
        · exact c1.trans (modFiber_sameCore h (fun _ => rfl))
        · split at h
          · simp at h
          · rename_i s2 h2
            have c2 : SameCore s1 s2 := modFiber_sameCore h2 (fun _ => rfl)
            split at h
            · simp at h
            · rename_i d hd
              split at h
              · simp at h
              · rename_i s4 h4
                have c4 : SameCore (s2.setStackMem pf.stack_mem { d with occupy_co := pending }) s4 :=
                  modFiber_sameCore h4 (fun _ => rfl)
                have c3 := (c1.trans c2).trans ((setStackMem_sameCore s2 _ _).trans c4)
                split at h
                · exact c3.trans (save_stack_buffer_sameCore h)
                · simp only [Option.some.injEq] at h
                  subst h
                  exact c3

theorem co_swap_post_sameCore {s s' : World} (h : co_swap_post s = some s') : SameCore s s' := by
  unfold co_swap_post at h
  simp only at h
  split at h
  · simp at h
  · split at h
    · simp at h
    · split at h
      · split at h
        · simp at h
        · split at h
          · simp only [Option.some.injEq] at h; subst h; exact SameCore.refl _
          · split at h
            · simp only [Option.some.injEq] at h; subst h
              exact ⟨rfl, rfl, rfl, rfl, rfl, fun _ => rfl⟩
            · simp only [Option.some.injEq] at h; subst h; exact SameCore.refl _
      · simp only [Option.some.injEq] at h; subst h; exact SameCore.refl _

theorem resume_spec {s s' : World} {p c : Ptr} (h : resume s p c = some s') :
    p ≠ 0 ∧ ∃ f, s.fibers p = some f ∧ f.m_state = FState.READY ∧
      s'.t_fiber = (if f.cIsShareStack then s.t_fiber else p) ∧
      s'.t_thread_fiber = s.t_thread_fiber ∧ s'.t_scheduler_fiber = s.t_scheduler_fiber ∧
      s'.s_fiber_id = s.s_fiber_id ∧ s'.s_fiber_count = s.s_fiber_count ∧
      ∀ q, (s'.fibers q).map Fiber.core =
        if q = p then some { f.core with m_state := FState.RUNNING }
        else (s.fibers q).map Fiber.core := by
  unfold resume resume_pre at h
  split at h
  · simp at h
  · rename_i hp
    refine ⟨hp, ?_⟩
    split at h
    · simp at h
    · rename_i f hf
      refine ⟨f, hf, ?_⟩
      split at h
      · simp at h
      · rename_i hst
        simp only [ne_eq, Decidable.not_not] at hst
        refine ⟨hst, ?_⟩
        have key : ∀ s1 : World, SameCore s1 s' →
            (s1.fibers = (s.setFiber p { f with m_state := FState.RUNNING }).fibers) →
            ∀ q, (s'.fibers q).map Fiber.core =
              if q = p then some { f.core with m_state := FState.RUNNING }
              else (s.fibers q).map Fiber.core := by
          intro s1 hc hfib q
          rw [hc.2.2.2.2.2 q, hfib]
          simp only [World.setFiber]
          by_cases hq : q = p
          · simp [hq, Fiber.core]
          · simp [hq]
        simp only at h
        split at h
        · rename_i hsh
          simp only [hsh, if_true]
          cases hpre : co_swap_pre (s.setFiber p { f with m_state := FState.RUNNING })
              (s.setFiber p { f with m_state := FState.RUNNING }).t_fiber p c with
          | none => simp [hpre] at h
          | some s2 =>
            simp only [hpre, Option.map_some', Option.some_bind] at h
            have c1 := co_swap_pre_sameCore hpre
            have c2 := swapcontext_sameCore h
            have cc := c1.trans c2
            exact ⟨cc.1, cc.2.1, cc.2.2.1, cc.2.2.2.1, cc.2.2.2.2.1, key _ cc rfl⟩
        · rename_i hsh
          simp only [hsh, if_false, Bool.false_eq_true]
          split at h
          all_goals
            simp only [Option.some_bind] at h
            have cc := swapcontext_sameCore h
            exact ⟨cc.1, cc.2.1, cc.2.2.1, cc.2.2.2.1, cc.2.2.2.2.1, key _ cc rfl⟩

theorem yield_spec {s s' : World} {p c : Ptr} (h : yield s p c = some s') :
    p ≠ 0 ∧ ∃ f, s.fibers p = some f ∧
      (f.m_state = FState.RUNNING ∨ f.m_state = FState.TERM) ∧
      s'.t_fiber = (if f.cIsShareStack then s.t_fiber
        else if f.m_runInScheduler then s.t_scheduler_fiber else s.t_thread_fiber) ∧
      s'.t_fiber ≠ 0 ∧ (s'.fibers s'.t_fiber).isSome ∧
      s'.t_thread_fiber = s.t_thread_fiber ∧ s'.t_scheduler_fiber = s.t_scheduler_fiber ∧
      s'.s_fiber_id = s.s_fiber_id ∧ s'.s_fiber_count = s.s_fiber_count ∧
      ∀ q, (s'.fibers q).map Fiber.core =
        if q = p then
          some { f.core with
            m_state := if f.m_state = FState.TERM then FState.TERM else FState.READY }
        else (s.fibers q).map Fiber.core := by
  unfold yield yield_pre at h
  split at h
  · simp at h
  · rename_i hp
    refine ⟨hp, ?_⟩
    split at h
    · simp at h
    · rename_i f hf
      refine ⟨f, hf, ?_⟩
      split at h
      · simp at h
      · rename_i hst
        have hst' : f.m_state = FState.RUNNING ∨ f.m_state = FState.TERM := by
          by_contra hn
          exact hst ⟨fun h1 => hn (Or.inl h1), fun h2 => hn (Or.inr h2)⟩
        refine ⟨hst', ?_⟩
        have key : ∀ s0 s1 : World, SameCore s1 s' →
            s0 = (if f.m_state ≠ FState.TERM then s.setFiber p { f with m_state := FState.READY }
              else s) →
            (s1.fibers = s0.fibers) →
            ∀ q, (s'.fibers q).map Fiber.core =
              if q = p then
                some { f.core with
                  m_state := if f.m_state = FState.TERM then FState.TERM else FState.READY }
              else (s.fibers q).map Fiber.core := by
          intro s0 s1 hc h0 hfib q
          rw [hc.2.2.2.2.2 q, hfib, h0]
          by_cases ht : f.m_state = FState.TERM
          · by_cases hq : q = p
            · simp [hq, ht, hf, Fiber.core]
            · simp [hq, ht]
          · by_cases hq : q = p
            · simp [hq, ht, Fiber.core, World.setFiber]
            · simp [hq, ht, World.setFiber]
        have regs : ∀ s0 : World,
            s0 = (if f.m_state ≠ FState.TERM then s.setFiber p { f with m_state := FState.READY }
              else s) →
            s0.t_fiber = s.t_fiber ∧ s0.t_thread_fiber = s.t_thread_fiber ∧
            s0.t_scheduler_fiber = s.t_scheduler_fiber ∧ s0.s_fiber_id = s.s_fiber_id ∧
            s0.s_fiber_count = s.s_fiber_count := by
          intro s0 h0
          subst h0
          split <;> simp [World.setFiber]
        simp only at h
        have tgt : ∀ (s1 : World) (a b : Ptr), swapcontext s1 a b = some s' → s1.t_fiber = b →
            s'.t_fiber ≠ 0 ∧ (s'.fibers s'.t_fiber).isSome := by
          intro s1 a b hsw hb
          have cc := swapcontext_sameCore hsw
          obtain ⟨s2, h2, hb0, hlive, rfl⟩ := swapcontext_eq hsw
          have e2 : s2.t_fiber = b := by
            have := (modFiber_sameCore h2 (fun _ => rfl)).1
            rw [this, hb]
          simp only [e2]
          exact ⟨hb0, hlive⟩
        split at h
        · rename_i hsh
          simp only [hsh, if_true]
          generalize hs0 : (if f.m_state ≠ FState.TERM then
            s.setFiber p { f with m_state := FState.READY } else s) = s0 at h
          obtain ⟨r1, r2, r3, r4, r5⟩ := regs s0 hs0.symm
          cases hpre : co_swap_pre s0 p s0.t_fiber c with
          | none => simp [hpre] at h
          | some s2 =>
            simp only [hpre, Option.map_some', Option.some_bind] at h
            have c1 := co_swap_pre_sameCore hpre
            have c2 := swapcontext_sameCore h
            have cc := c1.trans c2
            have t := tgt s2 _ _ h c1.1
            exact ⟨cc.1.trans r1, t.1, t.2, cc.2.1.trans r2, cc.2.2.1.trans r3,
              cc.2.2.2.1.trans r4, cc.2.2.2.2.1.trans r5, key s0 s0 cc hs0.symm rfl⟩
        · rename_i hsh
          simp only [hsh, if_false, Bool.false_eq_true]
          generalize hs0 : (if f.m_state ≠ FState.TERM then
            s.setFiber p { f with m_state := FState.READY } else s) = s0 at h
          obtain ⟨r1, r2, r3, r4, r5⟩ := regs s0 hs0.symm
          split at h
          · rename_i hris
            simp only [hris, if_true]
            simp only [Option.some_bind] at h
            have cc := swapcontext_sameCore h
            have t := tgt _ _ _ h rfl
            exact ⟨by rw [cc.1]; exact r3, t.1, t.2, cc.2.1.trans r2, cc.2.2.1.trans r3,
              cc.2.2.2.1.trans r4, cc.2.2.2.2.1.trans r5, key s0 _ cc hs0.symm rfl⟩
          · rename_i hris
            simp only [hris, if_false, Bool.false_eq_true]
            simp only [Option.some_bind] at h
            have cc := swapcontext_sameCore h
            have t := tgt _ _ _ h rfl
            exact ⟨by rw [cc.1]; exact r2, t.1, t.2, cc.2.1.trans r2, cc.2.2.1.trans r3,
              cc.2.2.2.1.trans r4, cc.2.2.2.2.1.trans r5, key s0 _ cc hs0.symm rfl⟩

theorem GetThis_spec {s s' : World} {p : Ptr} {raw : Fiber} {r : Ptr}
    (h : GetThis s p raw = some (s', r)) :
    (s.t_fiber ≠ 0 ∧ s' = s ∧ r = s.t_fiber) ∨
    (s.t_fiber = 0 ∧ p ≠ 0 ∧ s.fibers p = none ∧ r = p ∧
      s'.t_fiber = p ∧ s'.t_thread_fiber = p ∧ s'.t_scheduler_fiber = p ∧
      s'.s_fiber_id = toU64 (s.s_fiber_id + 1) ∧
      s'.s_fiber_count = toU64 (s.s_fiber_count + 1) ∧
      s'.stackmems = s.stackmems ∧
      ∃ f, f.core = { cIsShareStack := false, stack_mem := 0, m_id := s.s_fiber_id,
                      m_stacksize := 0, m_state := FState.RUNNING, m_stack := 0, m_cb := none,
                      m_runInScheduler := raw.m_runInScheduler } ∧
        s'.fibers = fun q => if q = p then some f else s.fibers q) := by
  unfold GetThis at h
  split at h
  · rename_i h0
    simp only [Option.some.injEq, Prod.mk.injEq] at h
    exact Or.inl ⟨h0, h.1.symm, h.2.symm⟩
  · rename_i h0
    simp only [ne_eq, Decidable.not_not] at h0
    split at h
    · simp at h
    · rename_i hp
      simp only [not_or, Option.not_isSome_iff_eq_none] at hp
      simp only [Fiber_main, SetThis, World.setFiber, if_true, Option.some.injEq,
        Prod.mk.injEq] at h
      obtain ⟨h1, h2⟩ := h
      subst h1
      refine Or.inr ⟨h0, hp.1, hp.2, h2.symm, rfl, rfl, rfl, rfl, rfl, rfl, _, ?_, rfl⟩
      rfl

set_option maxRecDepth 8000 in
theorem Fiber_cb_spec {s s' : World} {a : NewArgs} (h : Fiber_cb s a = some s') :
    a.p ≠ 0 ∧ s.fibers a.p = none ∧
    (a.share_stack = false → a.stk ≠ 0) ∧
    (a.share_stack = true → a.m ≠ 0 ∧ s.stackmems a.m = none ∧ a.buf ≠ 0) ∧
    s'.t_fiber = s.t_fiber ∧ s'.t_thread_fiber = s.t_thread_fiber ∧
    s'.t_scheduler_fiber = s.t_scheduler_fiber ∧
    s'.s_fiber_id = toU64 (s.s_fiber_id + 1) ∧
    s'.s_fiber_count = toU64 (s.s_fiber_count + 1) ∧
    s'.stackmems = (if a.share_stack then
        (co_alloc_stackmem s a.m a.buf
          (toU32 (if a.stacksize ≠ 0 then a.stacksize else 128000))).stackmems
      else s.stackmems) ∧
    ∃ f, f.core = { cIsShareStack := a.share_stack,
                    stack_mem := if a.share_stack then a.m else a.raw.stack_mem,
                    m_id := s.s_fiber_id,
                    m_stacksize := toU32 (if a.stacksize ≠ 0 then a.stacksize else 128000),
                    m_state := FState.READY,
                    m_stack := if a.share_stack then 0 else a.stk,
                    m_cb := a.cb, m_runInScheduler := a.run_in_scheduler } ∧
      f.m_ctx.ss_size = (if a.share_stack then
          intToSize (toI32 (toU32 (toU32 (if a.stacksize ≠ 0 then a.stacksize else 128000))))
        else toU32 (if a.stacksize ≠ 0 then a.stacksize else 128000)) ∧
      f.m_ctx.pc = Pc.MainFunc ∧
      s'.fibers = fun q => if q = a.p then some f else s.fibers q := by
  unfold Fiber_cb at h
  split at h
  · simp at h
  · rename_i hp
    simp only [not_or, Option.not_isSome_iff_eq_none] at hp
    split at h
    · simp at h
    · rename_i hk
      split at h
      · simp at h
      · rename_i hm
        generalize toU32 (if a.stacksize ≠ 0 then a.stacksize else 128000) = sz at h ⊢
        cases hsh : a.share_stack with
        | false =>
          simp only [hsh, memberInit, World.setFiber, Bool.false_eq_true, if_false,
            Option.some.injEq, getcontext, makecontext] at h
          subst h
          refine ⟨hp.1, hp.2, fun _ hz => hk ⟨hsh, hz⟩, fun hc => by simp at hc,
            rfl, rfl, rfl, rfl, rfl, by simp, _, ?_, ?_, ?_, rfl⟩
          · simp [Fiber.core]
          · simp
          · rfl
        | true =>
          simp only [hsh, true_and, not_or, Option.not_isSome_iff_eq_none] at hm
          simp only [hsh, memberInit, if_true, co_alloc_stackmem,
            World.setStackMem] at h
          simp only [Option.map_some'] at h
          injection h with h
          subst h
          refine ⟨hp.1, hp.2, fun hc => by simp at hc, fun _ => hm,
            rfl, rfl, rfl, rfl, rfl, by rw [if_pos rfl]; rfl, _, ?_,
            ?_, ?_, rfl⟩
          · simp [Fiber.core]
          · rw [if_pos rfl]; simp only [makecontext]
          · rfl

theorem reset_spec {s s' : World} {p : Ptr} {cb : Option Nat} (h : reset s p cb = some s') :
    p ≠ 0 ∧ ∃ f, s.fibers p = some f ∧ f.m_stack ≠ 0 ∧ f.m_state = FState.TERM ∧
      s'.t_fiber = s.t_fiber ∧ s'.t_thread_fiber = s.t_thread_fiber ∧
      s'.t_scheduler_fiber = s.t_scheduler_fiber ∧ s'.s_fiber_id = s.s_fiber_id ∧
      s'.s_fiber_count = s.s_fiber_count ∧ s'.stackmems = s.stackmems ∧ s'.mem = s.mem ∧
      ∃ f', f'.core = { f.core with m_state := FState.READY, m_cb := cb } ∧
        f'.m_ctx.pc = Pc.MainFunc ∧
        (f.cIsShareStack = false → f'.m_ctx.ss_sp = f.m_stack ∧ f'.m_ctx.ss_size = f.m_stacksize) ∧
        s'.fibers = fun q => if q = p then some f' else s.fibers q := by
  unfold reset at h
  split at h
  · simp at h
  · rename_i hp
    refine ⟨hp, ?_⟩
    split at h
    · simp at h
    · rename_i f hf
      refine ⟨f, hf, ?_⟩
      split at h
      · simp at h
      · rename_i hg
        simp only [ne_eq, not_not] at hg
        refine ⟨hg.1, hg.2, ?_⟩
        simp only at h
        split at h
        · simp at h
        · rename_i c2 hc2
          simp only [Option.some.injEq] at h
          subst h
          refine ⟨rfl, rfl, rfl, rfl, rfl, rfl, rfl, _, ?_, ?_, ?_, rfl⟩
          · rfl
          · rfl
          · intro hsh
            simp only [hsh, Bool.false_eq_true, if_false, Option.some.injEq] at hc2
            subst hc2
            exact ⟨rfl, rfl⟩

theorem MainFunc_spec {s s' : World} {p c : Ptr} {raw : Fiber}
    (h : MainFunc s p raw c = some s') :
    s.t_fiber ≠ 0 ∧ ∃ f g, s.fibers s.t_fiber = some f ∧ f.m_cb = some g ∧
      yield (s.setFiber s.t_fiber { f with m_cb := none, m_state := FState.TERM })
        s.t_fiber c = some s' := by
  unfold MainFunc at h
  split at h
  · simp at h
  · rename_i s1 curr hg
    split at h
    · simp at h
    · rename_i hcurr
      split at h
      · simp at h
      · rename_i f hf
        split at h
        · simp at h
        · rename_i g hcb
          rcases GetThis_spec hg with ⟨h0, rfl, rfl⟩ | ⟨_, _, _, rfl, _, _, _, _, _, _, f0, hc0, hfib⟩
          · exact ⟨h0, f, g, hf, hcb, h⟩
          · exfalso
            rw [hfib] at hf
            simp only [if_true, Option.some.injEq] at hf
            subst hf
            have : f0.core.m_cb = none := by rw [hc0]
            simp only [Fiber.core] at this
            rw [this] at hcb
            cases hcb

theorem Fiber_dtor_spec {s s' : World} {p : Ptr} (h : Fiber_dtor s p = some s') :
    (s.fibers p).isSome ∧ s'.s_fiber_id = s.s_fiber_id ∧
      s'.t_fiber = s.t_fiber ∧ s'.t_thread_fiber = s.t_thread_fiber ∧
      s'.t_scheduler_fiber = s.t_scheduler_fiber ∧ s'.stackmems = s.stackmems ∧
      s'.s_fiber_count = toU64 (s.s_fiber_count + 18446744073709551615) ∧
      s'.fibers = fun q => if q = p then none else s.fibers q := by
  unfold Fiber_dtor at h
  split at h
  · simp at h
  · rename_i f hf
    simp only [Option.some.injEq] at h
    subst h
    exact ⟨by simp [hf], rfl, rfl, rfl, rfl, rfl, rfl, rfl⟩

theorem toU32_of_lt {n : Nat} (h : n < 4294967296) : toU32 n = n := by
  unfold toU32; omega

theorem Fiber_cb_total (s : World) (a : NewArgs) (hp : a.p ≠ 0) (hfree : s.fibers a.p = none)
    (hstk : a.share_stack = false → a.stk ≠ 0)
    (hm : a.share_stack = true → a.m ≠ 0 ∧ s.stackmems a.m = none ∧ a.buf ≠ 0) :
    ∃ s', Fiber_cb s a = some s' := by
  unfold Fiber_cb
  rw [if_neg (by simp [hp, hfree])]
  cases hsh : a.share_stack with
  | false =>
    have := hstk hsh
    simp [this]
  | true =>
    obtain ⟨h1, h2, h3⟩ := hm hsh
    simp [h1, h2, h3, co_alloc_stackmem, World.setStackMem]

theorem reset_total (s : World) (p : Ptr) (g : Option Nat) (f : Fiber) (hp : p ≠ 0)
    (hf : s.fibers p = some f) (hpriv : f.cIsShareStack = false) (hstack : f.m_stack ≠ 0)
    (hterm : f.m_state = FState.TERM) : ∃ s', reset s p g = some s' := by
  unfold reset
  rw [if_neg hp]
  simp [hf, hpriv, hstack, hterm]

/-- C6: for a private-stack fiber in state TERM and any callable `g`, `reset(g)`
returns, sets the state to READY and the entry to `g`, re-installs the context
on the same stack, and leaves the id, the stack buffer and its size, the
`run_in_scheduler` and shared-stack flags, both global counters, memory and
every other fiber unchanged. -/
theorem C6_reset_frame (s : World) (p : Ptr) (g : Option Nat) (f : Fiber) (hp : p ≠ 0)
    (hf : s.fibers p = some f) (hpriv : f.cIsShareStack = false) (hstack : f.m_stack ≠ 0)
    (hterm : f.m_state = FState.TERM) :
    ∃ s' f', reset s p g = some s' ∧ s'.fibers p = some f' ∧
      f'.m_state = FState.READY ∧ f'.m_cb = g ∧
      f'.m_id = f.m_id ∧ f'.m_stack = f.m_stack ∧ f'.m_stacksize = f.m_stacksize ∧
      f'.m_runInScheduler = f.m_runInScheduler ∧ f'.cIsShareStack = f.cIsShareStack ∧
      f'.stack_mem = f.stack_mem ∧
      f'.m_ctx.ss_sp = f.m_stack ∧ f'.m_ctx.ss_size = f.m_stacksize ∧
      f'.m_ctx.pc = Pc.MainFunc ∧
      s'.s_fiber_id = s.s_fiber_id ∧ s'.s_fiber_count = s.s_fiber_count ∧
      s'.mem = s.mem ∧ (∀ q, q ≠ p → s'.fibers q = s.fibers q) := by
  obtain ⟨s', hs'⟩ := reset_total s p g f hp hf hpriv hstack hterm
  obtain ⟨_, f0, hf0, _, _, _, _, _, hid, hcnt, _, hmem, f', hcore, hpc, hctx, hfib⟩ :=
    reset_spec hs'
  rw [hf] at hf0
  cases hf0
  have hc : ∀ {α : Type} (π : Core → α), π f'.core = π { f.core with m_state := FState.READY, m_cb := g } :=
    fun π => by rw [hcore]
  refine ⟨s', f', hs', by rw [hfib]; simp, hc (fun c => c.m_state), hc (fun c => c.m_cb),
    hc (fun c => c.m_id), hc (fun c => c.m_stack), hc (fun c => c.m_stacksize),
    hc (fun c => c.m_runInScheduler), hc (fun c => c.cIsShareStack),
    hc (fun c => c.stack_mem), (hctx hpriv).1, (hctx hpriv).2, hpc, hid, hcnt, hmem, ?_⟩
  intro q hq
  rw [hfib]
  simp [hq]

/-- C6 witness: the terminated private worker of `termWorld` is reset. -/
theorem C6_reset_frame_witness :
    (fiberAt termWorld 2).m_state = FState.TERM ∧
    ∃ s' f', reset termWorld 2 (some 9) = some s' ∧ s'.fibers 2 = some f' ∧
      f'.m_state = FState.READY ∧ f'.m_cb = some 9 ∧ f'.m_id = 1 ∧ f'.m_stack = 4096 := by
  obtain ⟨s', f', h1, h2, h3, h4, h5, h6, _⟩ :=
    C6_reset_frame termWorld 2 (some 9) (fiberAt termWorld 2) (by decide) rfl rfl
      (by decide) rfl
  exact ⟨rfl, s', f', h1, h2, h3, h4, h5, h6⟩

theorem swapcontext_total (s : World) (a b : Ptr) (ha : a ≠ 0) (hb : b ≠ 0)
    (hla : (s.fibers a).isSome) (hlb : (s.fibers b).isSome) :
    ∃ s', swapcontext s a b = some s' ∧ s'.on_cpu = b ∧ s'.t_fiber = s.t_fiber ∧
      ∃ fa, s'.fibers a = some fa ∧ fa.m_ctx.pc = Pc.swapped := by
  obtain ⟨fa, hfa⟩ := Option.isSome_iff_exists.mp hla
  unfold swapcontext World.modFiber
  rw [if_neg ha]
  simp only [hfa]
  have hb' : ¬ (b = 0 ∨ ((s.setFiber a
      { fa with m_ctx := { fa.m_ctx with pc := Pc.swapped } }).fibers b).isNone = true) := by
    simp only [World.setFiber, not_or]
    refine ⟨hb, ?_⟩
    by_cases hba : b = a
    · simp [hba]
    · simp only [hba, if_false]
      cases hx : s.fibers b with
      | none => simp [hx] at hlb
      | some _ => simp
  rw [if_neg hb']
  exact ⟨_, rfl, rfl, rfl, { fa with m_ctx := { fa.m_ctx with pc := Pc.swapped } },
    by simp [World.setFiber], rfl⟩

/-- C4: a private-stack fiber that calls `yield()` (its state RUNNING or TERM,
the destination a live fiber) hands over as follows: constructed with
`run_in_scheduler = true`, `swapcontext` saves its context and restores the
scheduler fiber's, with the current register already set to the scheduler
fiber (hence not the thread-root's context when the two differ); constructed
with `run_in_scheduler = false`, the same with the thread-root fiber. -/
theorem C4_yield_destination (s : World) (p c : Ptr) (f : Fiber) (hp : p ≠ 0)
    (hf : s.fibers p = some f) (hpriv : f.cIsShareStack = false)
    (hst : f.m_state = FState.RUNNING ∨ f.m_state = FState.TERM)
    (hdst : (if f.m_runInScheduler then s.t_scheduler_fiber else s.t_thread_fiber) ≠ 0)
    (hlive : (s.fibers (if f.m_runInScheduler then s.t_scheduler_fiber
      else s.t_thread_fiber)).isSome) :
    ∃ s1 s', yield_pre s p c =
        some (s1, p, if f.m_runInScheduler then s.t_scheduler_fiber else s.t_thread_fiber) ∧
      yield s p c = some s' ∧
      (f.m_runInScheduler = true →
        s1.t_fiber = s.t_scheduler_fiber ∧ s'.t_fiber = s.t_scheduler_fiber ∧
        s'.on_cpu = s.t_scheduler_fiber ∧
        (s.t_scheduler_fiber ≠ s.t_thread_fiber → s'.on_cpu ≠ s.t_thread_fiber)) ∧
      (f.m_runInScheduler = false →
        s1.t_fiber = s.t_thread_fiber ∧ s'.t_fiber = s.t_thread_fiber ∧
        s'.on_cpu = s.t_thread_fiber) ∧
      (∃ fp, s'.fibers p = some fp ∧ fp.m_ctx.pc = Pc.swapped) := by
  have hst' : ¬ (f.m_state ≠ FState.RUNNING ∧ f.m_state ≠ FState.TERM) := by
    rintro ⟨h1, h2⟩
    rcases hst with h | h
    · exact h1 h
    · exact h2 h
  generalize hs0 : (if f.m_state ≠ FState.TERM then
    s.setFiber p { f with m_state := FState.READY } else s) = s0
  have r0 : s0.t_scheduler_fiber = s.t_scheduler_fiber ∧ s0.t_thread_fiber = s.t_thread_fiber := by
    subst hs0; split <;> exact ⟨rfl, rfl⟩
  have l0 : ∀ q, (s.fibers q).isSome → (s0.fibers q).isSome := by
    intro q hq
    subst hs0
    split
    · simp only [World.setFiber]
      by_cases hqp : q = p
      · simp [hqp]
      · simpa [hqp] using hq
    · exact hq
  have hpre : yield_pre s p c = some (if f.m_runInScheduler then
      (SetThis s0 s0.t_scheduler_fiber, p, s0.t_scheduler_fiber)
      else (SetThis s0 s0.t_thread_fiber, p, s0.t_thread_fiber)) := by
    unfold yield_pre
    rw [if_neg hp]
    simp only [hf]
    rw [if_neg hst']
    simp only [hs0]
    split
    · rename_i hsh
      rw [hpriv] at hsh
      cases hsh
    · split <;> rfl
  cases hris : f.m_runInScheduler with
  | true =>
    simp only [hris, if_true] at hdst hlive hpre ⊢
    obtain ⟨s', hsw, hcpu, htf, fp, hfp, hpc⟩ :=
      swapcontext_total (SetThis s0 s0.t_scheduler_fiber) p s0.t_scheduler_fiber hp
        (by rw [r0.1]; exact hdst) (l0 p (by simp [hf])) (by rw [r0.1]; exact l0 _ hlive)
    refine ⟨_, s', by rw [hpre, r0.1], ?_, ?_, (fun h => by simp at h), fp, hfp, hpc⟩
    · unfold yield; rw [hpre]; exact hsw
    · intro _
      refine ⟨rfl, by rw [htf]; exact r0.1, by rw [hcpu]; exact r0.1, fun hne => ?_⟩
      rw [hcpu, r0.1]; exact hne
  | false =>
    simp only [hris, Bool.false_eq_true, if_false] at hdst hlive hpre ⊢
    obtain ⟨s', hsw, hcpu, htf, fp, hfp, hpc⟩ :=
      swapcontext_total (SetThis s0 s0.t_thread_fiber) p s0.t_thread_fiber hp
        (by rw [r0.2]; exact hdst) (l0 p (by simp [hf])) (by rw [r0.2]; exact l0 _ hlive)
    refine ⟨_, s', by rw [hpre, r0.2], ?_, (fun h => by simp at h), ?_, fp, hfp, hpc⟩
    · unfold yield; rw [hpre]; exact hsw
    · intro _
      exact ⟨rfl, by rw [htf]; exact r0.2, by rw [hcpu]; exact r0.2⟩

/-- C4 witness: the scheduler-managed worker of `schedWorld` yields to the
designated scheduler fiber 3, not to the thread-root 1. -/
theorem C4_yield_destination_witness :
    (fiberAt schedWorld 2).m_runInScheduler = true ∧ schedWorld.t_scheduler_fiber = 3 ∧
    schedWorld.t_thread_fiber = 1 ∧
    ∃ s', yield schedWorld 2 0 = some s' ∧ s'.t_fiber = 3 ∧ s'.on_cpu = 3 ∧ s'.on_cpu ≠ 1 := by
  obtain ⟨_, s', _, h2, h3, _, _⟩ :=
    C4_yield_destination schedWorld 2 0 (fiberAt schedWorld 2) (by decide) rfl rfl
      (Or.inl rfl) (by decide) rfl
  obtain ⟨_, h4, h5, h6⟩ := h3 rfl
  exact ⟨rfl, rfl, rfl, s', h2, h4, h5, h6 (by decide)⟩

/-- C1 at a shared-stack fiber: the READY shared-stack worker 2 of
`sharedWorld` is resumed from the thread-root 1.  `resume()` sets its state to
RUNNING and switches to its context, but the current register still holds the
thread-root when `swapcontext` is called and after it; the trampoline entered
by the switch then finds the thread-root through `GetThis()` and aborts on its
empty callable. -/
theorem C1_shared_resume_keeps_current :
    (fiberAt sharedWorld 2).m_state = FState.READY ∧
    (fiberAt sharedWorld 2).cIsShareStack = true ∧ sharedWorld.t_fiber = 1 ∧
    ∃ s1 s2, resume_pre sharedWorld 2 9000 = some (s1, 1, 2) ∧
      (fiberAt s1 2).m_state = FState.RUNNING ∧ s1.t_fiber = 1 ∧ s1.t_fiber ≠ 2 ∧
      resume sharedWorld 2 9000 = some s2 ∧ s2.on_cpu = 2 ∧ s2.t_fiber = 1 ∧
      MainFunc s2 0 rawFiber 0 = none :=
  ⟨rfl, rfl, rfl, _, _, rfl, rfl, rfl, by decide, rfl, rfl, rfl, rfl⟩

theorem MainFunc_core {s s' : World} {p c : Ptr} {raw : Fiber}
    (h : MainFunc s p raw c = some s') :
    s.t_fiber ≠ 0 ∧ ∃ f g, s.fibers s.t_fiber = some f ∧ f.m_cb = some g ∧
      s'.t_fiber = (if f.cIsShareStack then s.t_fiber
        else if f.m_runInScheduler then s.t_scheduler_fiber else s.t_thread_fiber) ∧
      s'.t_fiber ≠ 0 ∧ (s'.fibers s'.t_fiber).isSome ∧
      s'.t_thread_fiber = s.t_thread_fiber ∧ s'.t_scheduler_fiber = s.t_scheduler_fiber ∧
      s'.s_fiber_id = s.s_fiber_id ∧ s'.s_fiber_count = s.s_fiber_count ∧
      ∀ q, (s'.fibers q).map Fiber.core =
        if q = s.t_fiber then some { f.core with m_cb := none, m_state := FState.TERM }
        else (s.fibers q).map Fiber.core := by
  obtain ⟨h0, f, g, hf, hcb, hy⟩ := MainFunc_spec h
  refine ⟨h0, f, g, hf, hcb, ?_⟩
  obtain ⟨_, f1, hf1, _, ht, hne, hl, hr, hs, hi, hc, hmap⟩ := yield_spec hy
  have e1 : f1 = { f with m_cb := none, m_state := FState.TERM } := by
    simp only [World.setFiber, if_true, Option.some.injEq] at hf1
    exact hf1.symm
  subst e1
  refine ⟨ht, hne, hl, hr, hs, hi, hc, fun q => ?_⟩
  rw [hmap q]
  by_cases hq : q = s.t_fiber
  · simp [hq, Fiber.core]
  · simp [hq, World.setFiber]

theorem core_map_id {a b : Option Fiber} (h : a.map Fiber.core = b.map Fiber.core) :
    a.map (fun f => f.m_id) = b.map (fun f => f.m_id) := by
  have := congrArg (Option.map (fun c : Core => c.m_id)) h
  simpa [Option.map_map, Function.comp, Fiber.core] using this

theorem ids_of_core_update {s s' : World} {p : Ptr} {f : Fiber} {c : Core}
    (hf : s.fibers p = some f) (hc : c.m_id = f.m_id)
    (h : ∀ q, (s'.fibers q).map Fiber.core =
      if q = p then some c else (s.fibers q).map Fiber.core) :
    ∀ q, (s'.fibers q).map (fun f => f.m_id) = (s.fibers q).map (fun f => f.m_id) := by
  intro q
  have hq := h q
  by_cases e : q = p
  · subst e
    rw [if_pos rfl] at hq
    cases hx : s'.fibers q with
    | none => rw [hx] at hq; simp at hq
    | some g =>
      rw [hx] at hq
      simp only [Option.map_some', Option.some.injEq] at hq
      have : g.core.m_id = c.m_id := by rw [hq]
      simp only [hf, Option.map_some', Option.some.injEq]
      rw [← hc, ← this]
      rfl
  · rw [if_neg e] at hq
    exact core_map_id hq

theorem step_ids {s s' : World} {o : Op} (h : step s o = some s') :
    (∃ p, constructed s o = some p ∧ s.fibers p = none ∧
      s'.s_fiber_id = toU64 (s.s_fiber_id + 1) ∧
      (∃ f, s'.fibers p = some f ∧ f.m_id = s.s_fiber_id) ∧
      ∀ q, q ≠ p → (s'.fibers q).map (fun f => f.m_id) = (s.fibers q).map (fun f => f.m_id)) ∨
    (constructed s o = none ∧ s'.s_fiber_id = s.s_fiber_id ∧
      ∀ q f', s'.fibers q = some f' → ∃ f, s.fibers q = some f ∧ f.m_id = f'.m_id) := by
  have same : s'.s_fiber_id = s.s_fiber_id →
      (∀ q, (s'.fibers q).map (fun f => f.m_id) = (s.fibers q).map (fun f => f.m_id)) →
      constructed s o = none →
      (constructed s o = none ∧ s'.s_fiber_id = s.s_fiber_id ∧
        ∀ q f', s'.fibers q = some f' → ∃ f, s.fibers q = some f ∧ f.m_id = f'.m_id) := by
    intro hid hm hc
    refine ⟨hc, hid, fun q f' hq => ?_⟩
    have := hm q
    rw [hq] at this
    cases hx : s.fibers q with
    | none => rw [hx] at this; simp at this
    | some f =>
      rw [hx] at this
      simp only [Option.map_some', Option.some.injEq] at this
      exact ⟨f, rfl, this.symm⟩
  cases o with
  | GetThis p raw =>
    simp only [step] at h
    cases hg : GetThis s p raw with
    | none => simp [hg] at h
    | some r =>
      obtain ⟨s1, r1⟩ := r
      simp only [hg, Option.map_some', Option.some.injEq] at h
      subst h
      rcases GetThis_spec hg with ⟨h0, rfl, _⟩ | ⟨h0, hp, hfree, _, _, _, _, hid, _, _, f, hcore, hfib⟩
      · exact Or.inr (same rfl (fun _ => rfl) (by simp [constructed, h0]))
      · refine Or.inl ⟨p, by simp [constructed, h0], hfree, hid, ⟨f, by rw [hfib]; simp, ?_⟩, ?_⟩
        · have : f.core.m_id = s.s_fiber_id := by rw [hcore]
          exact this
        · intro q hq
          rw [hfib]; simp [hq]
  | SetSchedulerFiber f =>
    simp only [step, Option.some.injEq] at h
    subst h
    exact Or.inr (same rfl (fun _ => rfl) rfl)
  | construct a =>
    simp only [step] at h
    obtain ⟨_, hfree, _, _, _, _, _, hid, _, _, f, hcore, _, _, hfib⟩ := Fiber_cb_spec h
    refine Or.inl ⟨a.p, rfl, hfree, hid, ⟨f, by rw [hfib]; simp, ?_⟩, ?_⟩
    · have : f.core.m_id = s.s_fiber_id := by rw [hcore]
      exact this
    · intro q hq
      rw [hfib]; simp [hq]
  | resume p c =>
    simp only [step] at h
    obtain ⟨_, f, hf, _, _, _, _, hid, _, hmap⟩ := resume_spec h
    exact Or.inr (same hid (ids_of_core_update hf rfl hmap) rfl)
  | yield p c =>
    simp only [step] at h
    obtain ⟨_, f, hf, _, _, _, _, _, _, hid, _, hmap⟩ := yield_spec h
    exact Or.inr (same hid (ids_of_core_update hf rfl hmap) rfl)
  | MainFunc p raw c =>
    simp only [step] at h
    obtain ⟨_, f, g, hf, _, _, _, _, _, _, hid, _, hmap⟩ := MainFunc_core h
    exact Or.inr (same hid (ids_of_core_update hf rfl hmap) rfl)
  | reset p cb =>
    simp only [step] at h
    obtain ⟨_, f, hf, _, _, _, _, _, hid, _, _, _, f', hcore, _, _, hfib⟩ := reset_spec h
    refine Or.inr (same hid (fun q => ?_) rfl)
    rw [hfib]
    by_cases hq : q = p
    · subst hq
      have : f'.core.m_id = f.m_id := by rw [hcore]; rfl
      simp only [if_true, hf, Option.map_some', Option.some.injEq]
      exact this
    · simp [hq]
  | destroy p =>
    simp only [step] at h
    obtain ⟨_, hid, _, _, _, _, _, hfib⟩ := Fiber_dtor_spec h
    refine Or.inr ⟨rfl, hid, fun q f' hq => ?_⟩
    rw [hfib] at hq
    by_cases e : q = p
    · simp [e] at hq
    · simp only [e, if_false] at hq
      exact ⟨f', hq, rfl⟩
  | co_swap_return =>
    simp only [step] at h
    have cc := co_swap_post_sameCore h
    exact Or.inr (same cc.2.2.2.1 (fun q => core_map_id (cc.2.2.2.2.2 q)) rfl)

theorem run_cons {s s' : World} {o : Op} {os : List Op} (h : run s (o :: os) = some s') :
    ∃ s1, step s o = some s1 ∧ run s1 os = some s' := by
  simp only [run] at h
  cases hs : step s o with
  | none => simp [hs] at h
  | some s1 => exact ⟨s1, rfl, by simpa [hs] using h⟩

theorem ids_run (ops : List Op) : ∀ (s s' : World), run s ops = some s' →
    s.s_fiber_id + (assignedIds s ops).length < 18446744073709551616 → IdsFresh s →
    assignedIds s ops = List.range' s.s_fiber_id (assignedIds s ops).length ∧
    s'.s_fiber_id = s.s_fiber_id + (assignedIds s ops).length ∧ IdsFresh s' := by
  induction ops with
  | nil =>
    intro s s' h _ hfresh
    simp only [run, Option.some.injEq] at h
    subst h
    simp [assignedIds, hfresh]
  | cons o os ih =>
    intro s s' h hb hfresh
    obtain ⟨s1, hstep, hrun⟩ := run_cons h
    rcases step_ids hstep with ⟨p, hc, hfree, hid, ⟨f, hf, hfid⟩, hrest⟩ | ⟨hc, hid, hrest⟩
    · have hlen : assignedIds s (o :: os) = s.s_fiber_id :: assignedIds s1 os := by
        simp [assignedIds, hstep, hc, fiberAt, hf, hfid]
      rw [hlen] at hb ⊢
      simp only [List.length_cons] at hb ⊢
      have hid' : s1.s_fiber_id = s.s_fiber_id + 1 := by
        rw [hid]; unfold toU64; omega
      have hfresh1 : IdsFresh s1 := by
        have old : ∀ q g, q ≠ p → s1.fibers q = some g →
            ∃ g0, s.fibers q = some g0 ∧ g0.m_id = g.m_id := by
          intro q g hq hg
          have := hrest q hq
          rw [hg] at this
          cases hx : s.fibers q with
          | none => rw [hx] at this; simp at this
          | some g0 =>
            rw [hx] at this
            simp only [Option.map_some', Option.some.injEq] at this
            exact ⟨g0, rfl, this.symm⟩
        have lt : ∀ q g, s1.fibers q = some g → q ≠ p → g.m_id < s.s_fiber_id := by
          intro q g hg hq
          obtain ⟨g0, hg0, e⟩ := old q g hq hg
          rw [← e]
          exact hfresh.1 q g0 hg0
        refine ⟨fun q g hg => ?_, fun q r g k hqr hg hk => ?_⟩
        · by_cases hq : q = p
          · subst hq
            rw [hf] at hg; cases hg
            omega
          · have := lt q g hg hq
            omega
        · by_cases hq : q = p
          · subst hq
            rw [hf] at hg; cases hg
            have := lt r k hk (Ne.symm hqr)
            omega
          · by_cases hr : r = p
            · subst hr
              rw [hf] at hk; cases hk
              have := lt q g hg hq
              omega
            · obtain ⟨g0, hg0, e⟩ := old q g hq hg
              obtain ⟨k0, hk0, e'⟩ := old r k hr hk
              rw [← e, ← e']
              exact hfresh.2 q r g0 k0 hqr hg0 hk0
      obtain ⟨i1, i2, i3⟩ := ih s1 s' hrun (by omega) hfresh1
      refine ⟨?_, by omega, i3⟩
      rw [List.range'_succ, ← hid']
      exact congrArg _ i1
    · have hlen : assignedIds s (o :: os) = assignedIds s1 os := by
        simp [assignedIds, hstep, hc]
      rw [hlen] at hb ⊢
      have hfresh1 : IdsFresh s1 := by
        refine ⟨fun q g hg => ?_, fun q r g k hqr hg hk => ?_⟩
        · obtain ⟨g0, hg0, e⟩ := hrest q g hg
          rw [hid, ← e]
          exact hfresh.1 q g0 hg0
        · obtain ⟨g0, hg0, e⟩ := hrest q g hg
          obtain ⟨k0, hk0, e'⟩ := hrest r k hk
          rw [← e, ← e']
          exact hfresh.2 q r g0 k0 hqr hg0 hk0
      obtain ⟨i1, i2, i3⟩ := ih s1 s' hrun (by omega) hfresh1
      rw [hid] at i1 i2
      exact ⟨i1, i2, i3⟩

/-- C7 (amended): every construction (thread-root or worker) gives the new
fiber the current value of the id counter and advances the counter by one
modulo `2^64`; no other operation, the destructor included, changes it.  Hence
along every run from thread start with fewer than `2^64` constructions the ids
are `0, 1, 2, …` in order of construction: a fiber constructed later has a
strictly greater id than every fiber constructed earlier (destroyed or not),
no id is given twice, and live fibers have different ids. -/
theorem C7_ids_monotonic (ops : List Op) (s' : World) (h : run World.init ops = some s')
    (hb : (assignedIds World.init ops).length < 18446744073709551616) :
    (∀ s o s1, step s o = some s1 →
      (∀ p, constructed s o = some p →
        (fiberAt s1 p).m_id = s.s_fiber_id ∧ s1.s_fiber_id = toU64 (s.s_fiber_id + 1) ∧
        (s.s_fiber_id + 1 < 18446744073709551616 → s1.s_fiber_id = s.s_fiber_id + 1)) ∧
      (constructed s o = none → s1.s_fiber_id = s.s_fiber_id)) ∧
    (∀ s p s1, Fiber_dtor s p = some s1 → s1.s_fiber_id = s.s_fiber_id) ∧
    assignedIds World.init ops = List.range (assignedIds World.init ops).length ∧
    List.Pairwise (fun a b => a < b) (assignedIds World.init ops) ∧
    (assignedIds World.init ops).Nodup ∧
    s'.s_fiber_id = (assignedIds World.init ops).length ∧ IdsFresh s' := by
  have hinit : IdsFresh World.init :=
    ⟨fun p f hf => by simp [World.init] at hf, fun p q f g _ hf _ => by simp [World.init] at hf⟩
  obtain ⟨i1, i2, i3⟩ := ids_run ops World.init s' h (by simpa [World.init] using hb) hinit
  have e0 : World.init.s_fiber_id = 0 := rfl
  rw [e0] at i1 i2
  have hr : assignedIds World.init ops = List.range (assignedIds World.init ops).length := by
    rw [List.range_eq_range']; exact i1
  refine ⟨fun s o s1 hs => ⟨fun p hp => ?_, fun hn => ?_⟩,
    fun s p s1 hd => (Fiber_dtor_spec hd).2.1, hr, ?_, ?_, by omega, i3⟩
  · rcases step_ids hs with ⟨p', hc, _, hid, ⟨f, hf, hfid⟩, _⟩ | ⟨hc, _, _⟩
    · rw [hc] at hp
      cases hp
      refine ⟨by simp [fiberAt, hf, hfid], hid, fun hlt => ?_⟩
      rw [hid]; unfold toU64; omega
    · rw [hc] at hp; cases hp
  · rcases step_ids hs with ⟨p', hc, _, _, _, _⟩ | ⟨_, hid, _⟩
    · rw [hc] at hn; cases hn
    · exact hid
  · rw [hr]
    exact List.pairwise_lt_range _
  · rw [hr]
    exact List.nodup_range _

/-- C7 witness: thread-root, a worker, its destruction and a second worker at
the same address get the ids 0, 1 and 2. -/
theorem C7_ids_monotonic_witness :
    assignedIds World.init reuseOps = [0, 1, 2] ∧
    List.Pairwise (fun a b => a < b) (assignedIds World.init reuseOps) ∧
    (runD reuseOps).s_fiber_id = 3 := by
  obtain ⟨_, _, h3, h4, _, h6, _⟩ :=
    C7_ids_monotonic reuseOps (runD reuseOps) rfl (by decide)
  exact ⟨rfl, h4, rfl⟩

theorem Fiber_dtor_total (s : World) (p : Ptr) (f : Fiber) (hf : s.fibers p = some f) :
    Fiber_dtor s p = some { s with
      s_fiber_count := toU64 (s.s_fiber_count + 18446744073709551615),
      fibers := fun q => if q = p then none else s.fibers q } := by
  unfold Fiber_dtor
  simp [hf]

theorem cycles_ids (n : Nat) : ∀ s : World, s.fibers 2 = none →
    ∃ s2, run s (cycles n) = some s2 ∧ s2.fibers 2 = none ∧
      assignedIds s (cycles n) =
        (List.range n).map (fun i => if i = 0 then s.s_fiber_id else toU64 (s.s_fiber_id + i)) := by
  induction n with
  | zero => intro s hs; exact ⟨s, rfl, hs, rfl⟩
  | succ n ih =>
    intro s hs
    obtain ⟨s1, h1⟩ := Fiber_cb_total s (workerArgs 2 4096 true) (by decide) hs
      (fun _ => by decide) (fun h => by cases h)
    obtain ⟨_, _, _, _, _, _, _, hid, _, _, f, hcore, _, _, hfib⟩ := Fiber_cb_spec h1
    have hf : s1.fibers 2 = some f := by
      rw [hfib]
      exact if_pos rfl
    have hfid : f.m_id = s.s_fiber_id := by
      have : f.core.m_id = s.s_fiber_id := by rw [hcore]
      exact this
    have h2 := Fiber_dtor_total s1 2 f hf
    generalize hs2 : ({ s1 with
      s_fiber_count := toU64 (s1.s_fiber_count + 18446744073709551615),
      fibers := fun q => if q = 2 then none else s1.fibers q } : World) = s2 at h2
    have e2 : s2.fibers 2 = none := by subst hs2; simp
    have i2 : s2.s_fiber_id = toU64 (s.s_fiber_id + 1) := by subst hs2; exact hid
    obtain ⟨s3, r3, f3, a3⟩ := ih s2 e2
    refine ⟨s3, ?_, f3, ?_⟩
    · simp only [cycles, run, step, h1, h2, Option.some_bind]
      exact r3
    · have hstep1 : step s (Op.construct (workerArgs 2 4096 true)) = some s1 := h1
      have hstep2 : step s1 (Op.destroy 2) = some s2 := h2
      have hp : (workerArgs 2 4096 true).p = 2 := rfl
      simp only [cycles, assignedIds, hstep1, hstep2, constructed, hp, fiberAt, hf,
        Option.getD_some, hfid, List.nil_append, List.singleton_append]
      rw [a3, List.range_succ_eq_map, List.map_cons, List.map_map]
      simp only [if_true, List.cons.injEq, true_and]
      apply List.map_congr_left
      intro i _
      simp only [Function.comp, Nat.succ_eq_add_one, Nat.add_one_ne_zero, if_false, i2]
      unfold toU64
      split <;> omega

/-- C7 counterexample: a worker is constructed and destroyed `2^64 + 1` times.
The run succeeds, the first and the last fiber both get id 0, so the ids are
neither strictly increasing nor free of repetition. -/
theorem C7_counterexample :
    (run World.init (cycles 18446744073709551617)).isSome ∧
    ¬ (assignedIds World.init (cycles 18446744073709551617)).Nodup ∧
    ¬ List.Pairwise (fun a b => a < b) (assignedIds World.init (cycles 18446744073709551617)) := by
  obtain ⟨s2, h1, _, h3⟩ := cycles_ids 18446744073709551617 World.init rfl
  have hnd : ¬ (assignedIds World.init (cycles 18446744073709551617)).Nodup := by
    rw [h3]
    intro hn
    have := List.inj_on_of_nodup_map hn (x := 0) (List.mem_range.mpr (by omega))
      (y := 18446744073709551616) (List.mem_range.mpr (by omega))
      (by simp [World.init, toU64])
    omega
  refine ⟨by rw [h1]; rfl, hnd, fun hp => hnd ?_⟩
  exact hp.imp (fun h => Nat.ne_of_lt h)

theorem fixed_of_core_update {s s' : World} {p : Ptr} {f : Fiber} {c : Core}
    (hf : s.fibers p = some f)
    (h : ∀ q, (s'.fibers q).map Fiber.core =
      if q = p then some c else (s.fibers q).map Fiber.core)
    (hc : c.fixed = f.core.fixed) :
    ∀ q f', s'.fibers q = some f' → ∃ f0, s.fibers q = some f0 ∧ f'.core.fixed = f0.core.fixed := by
  intro q f' hq
  have hh := h q
  rw [hq] at hh
  by_cases e : q = p
  · subst e
    rw [if_pos rfl] at hh
    simp only [Option.map_some', Option.some.injEq] at hh
    exact ⟨f, hf, by rw [hh, hc]⟩
  · rw [if_neg e] at hh
    cases hx : s.fibers q with
    | none => rw [hx] at hh; simp at hh
    | some f0 =>
      rw [hx] at hh
      simp only [Option.map_some', Option.some.injEq] at hh
      exact ⟨f0, rfl, by rw [hh]⟩

theorem fixed_of_sameCore {s s' : World} (h : SameCore s s') :
    ∀ q f', s'.fibers q = some f' → ∃ f0, s.fibers q = some f0 ∧ f'.core.fixed = f0.core.fixed := by
  intro q f' hq
  have hh := h.2.2.2.2.2 q
  rw [hq] at hh
  cases hx : s.fibers q with
  | none => rw [hx] at hh; simp at hh
  | some f0 =>
    rw [hx] at hh
    simp only [Option.map_some', Option.some.injEq] at hh
    exact ⟨f0, rfl, by rw [hh]⟩

theorem step_fixed {s s' : World} {o : Op} (h : step s o = some s') :
    ∀ q f', s'.fibers q = some f' → constructed s o ≠ some q →
      ∃ f0, s.fibers q = some f0 ∧ f'.core.fixed = f0.core.fixed := by
  cases o with
  | GetThis p raw =>
    simp only [step] at h
    cases hg : GetThis s p raw with
    | none => simp [hg] at h
    | some r =>
      obtain ⟨s1, r1⟩ := r
      simp only [hg, Option.map_some', Option.some.injEq] at h
      subst h
      rcases GetThis_spec hg with ⟨h0, rfl, _⟩ | ⟨h0, hp, hfree, _, _, _, _, hid, _, _, f, hcore, hfib⟩
      · intro q f' hq _; exact ⟨f', hq, rfl⟩
      · intro q f' hq hc
        have hqp : q ≠ p := by
          intro e; apply hc; simp [constructed, h0, e]
        rw [hfib] at hq
        simp only [hqp, if_false] at hq
        exact ⟨f', hq, rfl⟩
  | SetSchedulerFiber f =>
    simp only [step, Option.some.injEq] at h
    subst h
    intro q f' hq _; exact ⟨f', hq, rfl⟩
  | construct a =>
    simp only [step] at h
    obtain ⟨_, hfree, _, _, _, _, _, hid, _, _, f, hcore, _, _, hfib⟩ := Fiber_cb_spec h
    intro q f' hq hc
    have hqp : q ≠ a.p := by
      intro e; apply hc; simp [constructed, e]
    rw [hfib] at hq
    simp only [hqp, if_false] at hq
    exact ⟨f', hq, rfl⟩
  | resume p c =>
    simp only [step] at h
    obtain ⟨_, f, hf, _, _, _, _, hid, _, hmap⟩ := resume_spec h
    intro q f' hq _
    exact fixed_of_core_update hf hmap rfl q f' hq
  | yield p c =>
    simp only [step] at h
    obtain ⟨_, f, hf, _, _, _, _, _, _, hid, _, hmap⟩ := yield_spec h
    intro q f' hq _
    exact fixed_of_core_update hf hmap rfl q f' hq
  | MainFunc p raw c =>
    simp only [step] at h
    obtain ⟨_, f, g, hf, _, _, _, _, _, _, hid, _, hmap⟩ := MainFunc_core h
    intro q f' hq _
    exact fixed_of_core_update hf hmap rfl q f' hq
  | reset p cb =>
    simp only [step] at h
    obtain ⟨_, f, hf, _, _, _, _, _, hid, _, _, _, f', hcore, _, _, hfib⟩ := reset_spec h
    intro q g hq _
    rw [hfib] at hq
    by_cases e : q = p
    · subst e
      simp only [if_true, Option.some.injEq] at hq
      subst hq
      exact ⟨f, hf, by rw [hcore]; rfl⟩
    · simp only [e, if_false] at hq
      exact ⟨g, hq, rfl⟩
  | destroy p =>
    simp only [step] at h
    obtain ⟨_, hid, _, _, _, _, _, hfib⟩ := Fiber_dtor_spec h
    intro q g hq _
    rw [hfib] at hq
    by_cases e : q = p
    · simp [e] at hq
    · simp only [e, if_false] at hq
      exact ⟨g, hq, rfl⟩
  | co_swap_return =>
    simp only [step] at h
    intro q f' hq _
    exact fixed_of_sameCore (co_swap_post_sameCore h) q f' hq

theorem step_regs {s s' : World} {o : Op} (h : step s o = some s') :
    (s.t_fiber ≠ 0 → s'.t_fiber ≠ 0) ∧
    ((∃ p raw, o = Op.GetThis p raw ∧ s.t_fiber = 0 ∧ s'.t_fiber = p ∧ s'.t_thread_fiber = p) ∨
      s'.t_thread_fiber = s.t_thread_fiber) ∧
    (∀ p, constructed s o = some p → p ≠ 0) := by
  cases o with
  | GetThis p raw =>
    simp only [step] at h
    cases hg : GetThis s p raw with
    | none => simp [hg] at h
    | some r =>
      obtain ⟨s1, r1⟩ := r
      simp only [hg, Option.map_some', Option.some.injEq] at h
      subst h
      rcases GetThis_spec hg with ⟨h0, rfl, _⟩ | ⟨h0, hp, hfree, _, ht, hr, _⟩
      · exact ⟨fun h => h, Or.inr rfl, fun q hq => by simp [constructed, h0] at hq⟩
      · refine ⟨fun h => absurd h0 h, Or.inl ⟨p, raw, rfl, h0, ht, hr⟩, fun q hq => ?_⟩
        simp only [constructed, h0, if_true, Option.some.injEq] at hq
        rw [← hq]; exact hp
  | SetSchedulerFiber f =>
    simp only [step, Option.some.injEq] at h
    subst h
    exact ⟨fun h => h, Or.inr rfl, fun q hq => by simp [constructed] at hq⟩
  | construct a =>
    simp only [step] at h
    obtain ⟨hp, _, _, _, ht, hr, _⟩ := Fiber_cb_spec h
    refine ⟨fun h0 => by rw [ht]; exact h0, Or.inr hr, fun q hq => ?_⟩
    simp only [constructed, Option.some.injEq] at hq
    rw [← hq]; exact hp
  | resume p c =>
    simp only [step] at h
    obtain ⟨hp, f, hf, _, ht, hr, _⟩ := resume_spec h
    refine ⟨fun h0 => ?_, Or.inr hr, fun q hq => by simp [constructed] at hq⟩
    rw [ht]; split
    · exact h0
    · exact hp
  | yield p c =>
    simp only [step] at h
    obtain ⟨_, f, hf, _, _, hne, _, hr, _⟩ := yield_spec h
    exact ⟨fun _ => hne, Or.inr hr, fun q hq => by simp [constructed] at hq⟩
  | MainFunc p raw c =>
    simp only [step] at h
    obtain ⟨_, f, g, hf, _, _, hne, _, hr, _⟩ := MainFunc_core h
    exact ⟨fun _ => hne, Or.inr hr, fun q hq => by simp [constructed] at hq⟩
  | reset p cb =>
    simp only [step] at h
    obtain ⟨_, f, hf, _, _, ht, hr, _⟩ := reset_spec h
    exact ⟨fun h0 => by rw [ht]; exact h0, Or.inr hr, fun q hq => by simp [constructed] at hq⟩
  | destroy p =>
    simp only [step] at h
    obtain ⟨_, _, ht, hr, _⟩ := Fiber_dtor_spec h
    exact ⟨fun h0 => by rw [ht]; exact h0, Or.inr hr, fun q hq => by simp [constructed] at hq⟩
  | co_swap_return =>
    simp only [step] at h
    have cc := co_swap_post_sameCore h
    exact ⟨fun h0 => by rw [cc.1]; exact h0, Or.inr cc.2.1,
      fun q hq => by simp [constructed] at hq⟩

theorem live_of_core_update {s s' : World} {p : Ptr} {c : Core}
    (h : ∀ q, (s'.fibers q).map Fiber.core =
      if q = p then some c else (s.fibers q).map Fiber.core) :
    ∀ q, (s.fibers q).isSome → (s'.fibers q).isSome := by
  intro q hq
  have hh := h q
  by_cases e : q = p
  · rw [if_pos e] at hh
    cases hx : s'.fibers q with
    | none => rw [hx] at hh; simp at hh
    | some _ => rfl
  · rw [if_neg e] at hh
    cases hx : s'.fibers q with
    | none =>
      rw [hx] at hh
      cases hy : s.fibers q with
      | none => rw [hy] at hq; cases hq
      | some _ => rw [hy] at hh; simp at hh
    | some _ => rfl

theorem step_live {s s' : World} {o : Op} (h : step s o = some s') (ho : o.noDestroy) :
    ∀ q, (s.fibers q).isSome → (s'.fibers q).isSome := by
  cases o with
  | GetThis p raw =>
    simp only [step] at h
    cases hg : GetThis s p raw with
    | none => simp [hg] at h
    | some r =>
      obtain ⟨s1, r1⟩ := r
      simp only [hg, Option.map_some', Option.some.injEq] at h
      subst h
      rcases GetThis_spec hg with ⟨h0, rfl, _⟩ | ⟨h0, hp, hfree, _, _, _, _, hid, _, _, f, hcore, hfib⟩
      · exact fun q hq => hq
      · intro q hq
        rw [hfib]
        by_cases e : q = p
        · simp [e]
        · simpa [e] using hq
  | SetSchedulerFiber f =>
    simp only [step, Option.some.injEq] at h
    subst h
    exact fun q hq => hq
  | construct a =>
    simp only [step] at h
    obtain ⟨_, hfree, _, _, _, _, _, hid, _, _, f, hcore, _, _, hfib⟩ := Fiber_cb_spec h
    intro q hq
    rw [hfib]
    by_cases e : q = a.p
    · simp [e]
    · simpa [e] using hq
  | resume p c =>
    simp only [step] at h
    obtain ⟨_, f, hf, _, _, _, _, hid, _, hmap⟩ := resume_spec h
    exact live_of_core_update hmap
  | yield p c =>
    simp only [step] at h
    obtain ⟨_, f, hf, _, _, _, _, _, _, hid, _, hmap⟩ := yield_spec h
    exact live_of_core_update hmap
  | MainFunc p raw c =>
    simp only [step] at h
    obtain ⟨_, f, g, hf, _, _, _, _, _, _, hid, _, hmap⟩ := MainFunc_core h
    exact live_of_core_update hmap
  | reset p cb =>
    simp only [step] at h
    obtain ⟨_, f, hf, _, _, _, _, _, hid, _, _, _, f', hcore, _, _, hfib⟩ := reset_spec h
    intro q hq
    rw [hfib]
    by_cases e : q = p
    · simp [e]
    · simpa [e] using hq
  | destroy p => exact absurd ho (by simp [Op.noDestroy])
  | co_swap_return =>
    simp only [step] at h
    have cc := co_swap_post_sameCore h
    intro q hq
    have := cc.2.2.2.2.2 q
    cases hx : s'.fibers q with
    | none =>
      rw [hx] at this
      cases hy : s.fibers q with
      | none => rw [hy] at hq; cases hq
      | some _ => rw [hy] at this; simp at this
    | some _ => rfl

theorem step_current {s s' : World} {o : Op} (h : step s o = some s') :
    s'.t_fiber = s.t_fiber ∨ (s'.t_fiber ≠ 0 ∧ (s'.fibers s'.t_fiber).isSome) := by
  cases o with
  | GetThis p raw =>
    simp only [step] at h
    cases hg : GetThis s p raw with
    | none => simp [hg] at h
    | some r =>
      obtain ⟨s1, r1⟩ := r
      simp only [hg, Option.map_some', Option.some.injEq] at h
      subst h
      rcases GetThis_spec hg with ⟨h0, rfl, _⟩ | ⟨h0, hp, hfree, _, ht, _, _, hid, _, _, f, hcore, hfib⟩
      · exact Or.inl rfl
      · refine Or.inr ⟨by rw [ht]; exact hp, ?_⟩
        rw [ht, hfib]; simp
  | SetSchedulerFiber f =>
    simp only [step, Option.some.injEq] at h
    subst h
    exact Or.inl rfl
  | construct a =>
    simp only [step] at h
    exact Or.inl (Fiber_cb_spec h).2.2.2.2.1
  | resume p c =>
    simp only [step] at h
    obtain ⟨hp, f, hf, _, ht, _, _, hid, _, hmap⟩ := resume_spec h
    cases hsh : f.cIsShareStack with
    | true => rw [hsh] at ht; exact Or.inl ht
    | false =>
      rw [hsh] at ht
      simp only [Bool.false_eq_true, if_false] at ht
      refine Or.inr ⟨by rw [ht]; exact hp, ?_⟩
      rw [ht]
      have := hmap p
      rw [if_pos rfl] at this
      cases hx : s'.fibers p with
      | none => rw [hx] at this; simp at this
      | some _ => rfl
  | yield p c =>
    simp only [step] at h
    obtain ⟨_, f, hf, _, _, hne, hl, _⟩ := yield_spec h
    exact Or.inr ⟨hne, hl⟩
  | MainFunc p raw c =>
    simp only [step] at h
    obtain ⟨_, f, g, hf, _, _, hne, hl, _⟩ := MainFunc_core h
    exact Or.inr ⟨hne, hl⟩
  | reset p cb =>
    simp only [step] at h
    obtain ⟨_, f, hf, _, _, ht, _⟩ := reset_spec h
    exact Or.inl ht
  | destroy p =>
    simp only [step] at h
    exact Or.inl (Fiber_dtor_spec h).2.2.1
  | co_swap_return =>
    simp only [step] at h
    exact Or.inl (co_swap_post_sameCore h).1

theorem current_live_reach {s : World} (h : ReachBy Op.noDestroy s) :
    (s.t_fiber ≠ 0 → (s.fibers s.t_fiber).isSome) ∧ (s.t_thread_fiber ≠ 0 → s.t_fiber ≠ 0) := by
  induction h with
  | init => exact ⟨fun h => absurd rfl h, fun h => absurd rfl h⟩
  | @step s s' o _ hok hstep ih =>
    obtain ⟨i1, i2⟩ := ih
    obtain ⟨r1, r2, _⟩ := step_regs hstep
    refine ⟨fun hne => ?_, fun hr => ?_⟩
    · rcases step_current hstep with e | ⟨_, hl⟩
      · rw [e] at hne ⊢
        exact step_live hstep hok _ (i1 hne)
      · exact hl
    · rcases r2 with ⟨p, raw, _, _, hp, hq⟩ | r2
      · rw [hp, ← hq]; exact hr
      · rw [r2] at hr
        exact r1 (i2 hr)

/-- C3 (amended): in every state reached through `GetThis`,
`SetSchedulerFiber`, construction, `resume`, `yield`, entry completion and
`reset`, once the thread-root exists the current register is non-null and
refers to a live fiber; the thread-root is created RUNNING and current, and a
private-stack fiber is current and RUNNING right after its `resume()`.  (Being
RUNNING is not equivalent to being current.) -/
theorem C3_current_fiber (s : World) (h : ReachBy Op.noDestroy s) :
    (s.t_thread_fiber ≠ 0 → s.t_fiber ≠ 0 ∧ (s.fibers s.t_fiber).isSome) ∧
    (∀ p raw s' r, s.t_fiber = 0 → GetThis s p raw = some (s', r) →
      r = s'.t_fiber ∧ s'.t_thread_fiber = r ∧ (fiberAt s' r).m_state = FState.RUNNING) ∧
    (∀ p raw s' r, s.t_fiber ≠ 0 → GetThis s p raw = some (s', r) → s' = s ∧ r = s.t_fiber) ∧
    (∀ p c f s', s.fibers p = some f → f.cIsShareStack = false → resume s p c = some s' →
      s'.t_fiber = p ∧ (fiberAt s' p).m_state = FState.RUNNING) := by
  obtain ⟨i1, i2⟩ := current_live_reach h
  refine ⟨fun hr => ⟨i2 hr, i1 (i2 hr)⟩, ?_, ?_, ?_⟩
  · intro p raw s' r h0 hg
    rcases GetThis_spec hg with ⟨hne, _, _⟩ | ⟨_, _, _, hrp, ht, hroot, _, _, _, _, f, hcore, hfib⟩
    · exact absurd h0 hne
    · refine ⟨by rw [ht, hrp], by rw [hroot, hrp], ?_⟩
      have : f.core.m_state = FState.RUNNING := by rw [hcore]
      rw [hrp]
      simp only [fiberAt, hfib, if_true, Option.getD_some]
      exact this
  · intro p raw s' r hne hg
    rcases GetThis_spec hg with ⟨_, e1, e2⟩ | ⟨h0, _⟩
    · exact ⟨e1, e2⟩
    · exact absurd h0 hne
  · intro p c f s' hf hpriv hres
    obtain ⟨_, f0, hf0, _, ht, _, _, _, _, hmap⟩ := resume_spec hres
    rw [hf] at hf0
    cases hf0
    rw [hpriv] at ht
    refine ⟨by simpa using ht, ?_⟩
    have := hmap p
    rw [if_pos rfl] at this
    cases hx : s'.fibers p with
    | none => rw [hx] at this; simp at this
    | some g =>
      rw [hx] at this
      simp only [Option.map_some', Option.some.injEq] at this
      have e : g.core.m_state = FState.RUNNING := by rw [this]
      simpa [fiberAt, hx] using e

/-- C3 witness: after the thread-root has resumed a private worker the
current register holds the worker, a live fiber. -/
theorem C3_current_fiber_witness :
    (runD resumeOps).t_thread_fiber ≠ 0 ∧ (runD resumeOps).t_fiber = 2 ∧
    ((runD resumeOps).t_fiber ≠ 0 ∧ ((runD resumeOps).fibers (runD resumeOps).t_fiber).isSome) :=
  ⟨by decide, rfl,
    (C3_current_fiber (runD resumeOps)
      (ReachBy.step (Op.resume 2 0)
        (ReachBy.step (Op.construct (workerArgs 2 4096 true))
          (ReachBy.step (Op.GetThis 1 rawFiber) ReachBy.init trivial rfl) trivial rfl)
        trivial rfl)).1 (by decide)⟩

/-- C3 counterexample: the thread-root resumes a private worker.  The run
succeeds; afterwards the thread-root is still RUNNING although the current
fiber is the worker, so RUNNING does not imply being current. -/
theorem C3_counterexample :
    (run World.init resumeOps).isSome ∧
    (fiberAt (runD resumeOps) 1).m_state = FState.RUNNING ∧
    (runD resumeOps).t_thread_fiber = 1 ∧ (runD resumeOps).t_fiber = 2 ∧
    ¬ (∀ p f, (runD resumeOps).fibers p = some f →
        (f.m_state = FState.RUNNING ↔ (runD resumeOps).t_fiber = p)) :=
  ⟨rfl, rfl, rfl, rfl, fun h => absurd ((h 1 (fiberAt (runD resumeOps) 1) rfl).mp rfl) (by decide)⟩

theorem modFiber_stackmems {s s' : World} {p : Ptr} {g : Fiber → Fiber}
    (h : s.modFiber p g = some s') :
    s'.stackmems = s.stackmems ∧ s'.copy_outs = s.copy_outs := by
  obtain ⟨_, f, _, rfl⟩ := modFiber_eq h
  exact ⟨rfl, rfl⟩

theorem swapcontext_stackmems {s s' : World} {a b : Ptr} (h : swapcontext s a b = some s') :
    s'.stackmems = s.stackmems ∧ s'.copy_outs = s.copy_outs := by
  obtain ⟨s1, h1, _, _, rfl⟩ := swapcontext_eq h
  have := modFiber_stackmems h1
  exact ⟨this.1, this.2⟩

theorem co_swap_post_stackmems {s s' : World} (h : co_swap_post s = some s') :
    s'.stackmems = s.stackmems ∧ s'.copy_outs = s.copy_outs := by
  unfold co_swap_post at h
  simp only at h
  split at h
  · simp at h
  · split at h
    · simp at h
    · split at h
      · split at h
        · simp at h
        · split at h
          · simp only [Option.some.injEq] at h; subst h; exact ⟨rfl, rfl⟩
          · split at h
            · simp only [Option.some.injEq] at h; subst h; exact ⟨rfl, rfl⟩
            · simp only [Option.some.injEq] at h; subst h; exact ⟨rfl, rfl⟩
      · simp only [Option.some.injEq] at h; subst h; exact ⟨rfl, rfl⟩

theorem co_swap_pre_stackmems {s s' : World} {curr pending c : Ptr}
    (h : co_swap_pre s curr pending c = some s') :
    ∃ pf, s.fibers pending = some pf ∧
      (pf.cIsShareStack = false → s'.stackmems = s.stackmems ∧ s'.copy_outs = s.copy_outs) ∧
      (pf.cIsShareStack = true → ∃ d, s.stackmems pf.stack_mem = some d ∧
        s'.stackmems = (fun q => if q = pf.stack_mem then some { d with occupy_co := pending }
          else s.stackmems q) ∧
        (copyOutCond d.occupy_co pending = false → s'.copy_outs = s.copy_outs)) := by
  unfold co_swap_pre at h
  simp only at h
  split at h
  · simp at h
  · rename_i s1 h1
    have c1 : SameCore s s1 := modFiber_sameCore h1 (fun _ => rfl)
    have m1 := modFiber_stackmems h1
    split at h
    · simp at h
    · split at h
      · simp at h
      · rename_i pf hpf
        obtain ⟨pf0, hpf0, hfx⟩ := fixed_of_sameCore c1 pending pf hpf
        simp only [Core.fixed, Fiber.core, Prod.mk.injEq] at hfx
        obtain ⟨e1, e2, _⟩ := hfx
        refine ⟨pf0, hpf0, ?_⟩
        rw [← e1, ← e2]
        split at h
        · rename_i hsh
          have m2 := modFiber_stackmems h
          exact ⟨fun _ => ⟨m2.1.trans m1.1, m2.2.trans m1.2⟩, fun hc => by rw [hsh] at hc; cases hc⟩
        · rename_i hsh
          refine ⟨fun hc => absurd hc hsh, fun _ => ?_⟩
          split at h
          · simp at h
          · rename_i s2 h2
            have m2 := modFiber_stackmems h2
            split at h
            · simp at h
            · rename_i d hd
              rw [m2.1, m1.1] at hd
              refine ⟨d, hd, ?_⟩
              split at h
              · simp at h
              · rename_i s4 h4
                have m4 := modFiber_stackmems h4
                have e4 : s4.stackmems = fun q =>
                    if q = pf.stack_mem then some { d with occupy_co := pending }
                    else s.stackmems q := by
                  rw [m4.1]
                  simp only [World.setStackMem, m2.1, m1.1]
                have n4 : s4.copy_outs = s.copy_outs := by
                  rw [m4.2]
                  simp only [World.setStackMem, m2.2, m1.2]
                split at h
                · rename_i hcond
                  refine ⟨?_, fun hc => by rw [hc] at hcond; cases hcond⟩
                  unfold save_stack_buffer at h
                  split at h
                  · simp at h
                  · split at h
                    · simp at h
                    · split at h
                      · simp at h
                      · simp only at h
                        split at h
                        · simp at h
                        · simp only [Option.some.injEq] at h
                          subst h
                          exact e4
                · simp only [Option.some.injEq] at h
                  subst h
                  exact ⟨e4, fun _ => n4⟩

theorem resume_stackmems {s s' : World} {p c : Ptr} {f : Fiber}
    (h : resume s p c = some s') (hf : s.fibers p = some f) :
    (f.cIsShareStack = false → s'.stackmems = s.stackmems ∧ s'.copy_outs = s.copy_outs) ∧
    (f.cIsShareStack = true → ∃ d, s.stackmems f.stack_mem = some d ∧
      s'.stackmems = (fun q => if q = f.stack_mem then some { d with occupy_co := p }
        else s.stackmems q) ∧
      (copyOutCond d.occupy_co p = false → s'.copy_outs = s.copy_outs)) := by
  unfold resume resume_pre at h
  split at h
  · simp at h
  · simp only [hf] at h
    split at h
    · simp at h
    · split at h
      · rename_i hsh
        refine ⟨fun hc => (by rw [hsh] at hc; cases hc), fun _ => ?_⟩
        cases hpre : co_swap_pre (s.setFiber p { f with m_state := FState.RUNNING })
            (s.setFiber p { f with m_state := FState.RUNNING }).t_fiber p c with
        | none => simp [hpre] at h
        | some s2 =>
          simp only [hpre, Option.map_some', Option.some_bind] at h
          obtain ⟨pf, hpf, _, hshared⟩ := co_swap_pre_stackmems hpre
          simp only [World.setFiber, if_true, Option.some.injEq] at hpf
          subst hpf
          obtain ⟨d, hd, hm, hc⟩ := hshared hsh
          have m3 := swapcontext_stackmems h
          exact ⟨d, hd, by rw [m3.1]; exact hm, fun hcond => by rw [m3.2]; exact hc hcond⟩
      · rename_i hsh
        refine ⟨fun _ => ?_, fun hc => absurd hc hsh⟩
        split at h
        all_goals
          simp only [Option.some_bind] at h
          have m3 := swapcontext_stackmems h
          exact ⟨m3.1, m3.2⟩

theorem yield_stackmems {s s' : World} {p c : Ptr} {f : Fiber}
    (h : yield s p c = some s') (hf : s.fibers p = some f) :
    (f.cIsShareStack = false → s'.stackmems = s.stackmems ∧ s'.copy_outs = s.copy_outs) ∧
    (f.cIsShareStack = true → ∃ tf, s.fibers s.t_fiber = some tf ∧
      (tf.cIsShareStack = false → s'.stackmems = s.stackmems ∧ s'.copy_outs = s.copy_outs) ∧
      (tf.cIsShareStack = true → ∃ d, s.stackmems tf.stack_mem = some d ∧
        s'.stackmems = (fun q => if q = tf.stack_mem then some { d with occupy_co := s.t_fiber }
          else s.stackmems q) ∧
        (copyOutCond d.occupy_co s.t_fiber = false → s'.copy_outs = s.copy_outs))) := by
  unfold yield yield_pre at h
  split at h
  · simp at h
  · simp only [hf] at h
    split at h
    · simp at h
    · generalize hs0 : (if f.m_state ≠ FState.TERM then
        s.setFiber p { f with m_state := FState.READY } else s) = s0 at h
      have r0 : s0.t_fiber = s.t_fiber ∧ s0.stackmems = s.stackmems ∧
          s0.copy_outs = s.copy_outs := by
        subst hs0; split <;> exact ⟨rfl, rfl, rfl⟩
      have f0 : ∀ q g, s0.fibers q = some g → ∃ g0, s.fibers q = some g0 ∧
          g.cIsShareStack = g0.cIsShareStack ∧ g.stack_mem = g0.stack_mem := by
        intro q g hg
        subst hs0
        split at hg
        · simp only [World.setFiber] at hg
          by_cases e : q = p
          · simp only [e, if_true, Option.some.injEq] at hg
            subst hg
            exact ⟨f, by rw [e]; exact hf, rfl, rfl⟩
          · simp only [e, if_false] at hg
            exact ⟨g, hg, rfl, rfl⟩
        · exact ⟨g, hg, rfl, rfl⟩
      split at h
      · rename_i hsh
        refine ⟨fun hc => (by rw [hsh] at hc; cases hc), fun _ => ?_⟩
        cases hpre : co_swap_pre s0 p s0.t_fiber c with
        | none => simp [hpre] at h
        | some s2 =>
          simp only [hpre, Option.map_some', Option.some_bind] at h
          obtain ⟨pf, hpf, hpriv, hshared⟩ := co_swap_pre_stackmems hpre
          have m3 := swapcontext_stackmems h
          rw [r0.1] at hpf
          simp only [r0.1] at hshared
          obtain ⟨tf, htf, e1, e2⟩ := f0 _ pf hpf
          rw [e1] at hpriv
          simp only [e1, e2] at hshared
          refine ⟨tf, htf, fun hp => ?_, fun hs => ?_⟩
          · obtain ⟨a, b⟩ := hpriv hp
            exact ⟨by rw [m3.1, a, r0.2.1], by rw [m3.2, b, r0.2.2]⟩
          · obtain ⟨d, hd, hm, hc⟩ := hshared hs
            rw [r0.2.1] at hd hm
            refine ⟨d, hd, by rw [m3.1]; exact hm, fun hcond => ?_⟩
            rw [m3.2, hc hcond, r0.2.2]
      · rename_i hsh
        refine ⟨fun _ => ?_, fun hc => absurd hc hsh⟩
        split at h
        all_goals
          simp only [Option.some_bind] at h
          have m3 := swapcontext_stackmems h
          exact ⟨by rw [m3.1]; exact r0.2.1, by rw [m3.2]; exact r0.2.2⟩

theorem copyOutCond_false_of {o p : Ptr} (h : o = 0 ∨ o = p) : copyOutCond o p = false := by
  unfold copyOutCond
  rcases h with h | h <;> simp [h]

theorem own_same {s s' : World} (inv : OwnStackMem s)
    (hfix : ∀ q g', s'.fibers q = some g' → g'.cIsShareStack = true →
      ∃ g, s.fibers q = some g ∧ g'.core.fixed = g.core.fixed)
    (hm : s'.stackmems = s.stackmems) (hc : s'.copy_outs = s.copy_outs) : OwnStackMem s' := by
  obtain ⟨i1, i2, i3⟩ := inv
  refine ⟨fun p f' hf' hs1 => ?_, fun p q f' g' hf' hg' hs1 hs2 he => ?_, by rw [hc]; exact i3⟩
  · obtain ⟨f, hf, hfx⟩ := hfix p f' hf' hs1
    simp only [Core.fixed, Fiber.core, Prod.mk.injEq] at hfx
    rw [hm, hfx.2.1]
    exact i1 p f hf (hfx.1.symm.trans hs1)
  · obtain ⟨f, hf, hfx⟩ := hfix p f' hf' hs1
    obtain ⟨g, hg, hgx⟩ := hfix q g' hg' hs2
    simp only [Core.fixed, Fiber.core, Prod.mk.injEq] at hfx hgx
    exact i2 p q f g hf hg (hfx.1.symm.trans hs1) (hgx.1.symm.trans hs2)
      (hfx.2.1.symm.trans (he.trans hgx.2.1))

theorem own_update {s s' : World} {t : Ptr} {tf : Fiber} {d : stStackMem_t}
    (inv : OwnStackMem s)
    (hfix : ∀ q g', s'.fibers q = some g' → g'.cIsShareStack = true →
      ∃ g, s.fibers q = some g ∧ g'.core.fixed = g.core.fixed)
    (ht : s.fibers t = some tf) (hsh : tf.cIsShareStack = true)
    (hm : s'.stackmems = fun q => if q = tf.stack_mem then some { d with occupy_co := t }
      else s.stackmems q)
    (hc : s'.copy_outs = s.copy_outs) : OwnStackMem s' := by
  obtain ⟨i1, i2, i3⟩ := inv
  refine ⟨fun p f' hf' hs1 => ?_, fun p q f' g' hf' hg' hs1 hs2 he => ?_, by rw [hc]; exact i3⟩
  · obtain ⟨f, hf, hfx⟩ := hfix p f' hf' hs1
    simp only [Core.fixed, Fiber.core, Prod.mk.injEq] at hfx
    rw [hm, hfx.2.1]
    by_cases e : f.stack_mem = tf.stack_mem
    · have : p = t := i2 p t f tf hf ht (hfx.1.symm.trans hs1) hsh e
      simp only [e, if_true]
      exact ⟨_, rfl, Or.inr this.symm⟩
    · simp only [e, if_false]
      exact i1 p f hf (hfx.1.symm.trans hs1)
  · obtain ⟨f, hf, hfx⟩ := hfix p f' hf' hs1
    obtain ⟨g, hg, hgx⟩ := hfix q g' hg' hs2
    simp only [Core.fixed, Fiber.core, Prod.mk.injEq] at hfx hgx
    exact i2 p q f g hf hg (hfx.1.symm.trans hs1) (hgx.1.symm.trans hs2)
      (hfx.2.1.symm.trans (he.trans hgx.2.1))

theorem GetThis_copy_outs {s s' : World} {p r : Ptr} {raw : Fiber}
    (h : GetThis s p raw = some (s', r)) : s'.copy_outs = s.copy_outs := by
  unfold GetThis at h
  split at h
  · simp only [Option.some.injEq, Prod.mk.injEq] at h
    rw [← h.1]
  · split at h
    · simp at h
    · simp only [Fiber_main, SetThis, World.setFiber, if_true, Option.some.injEq,
        Prod.mk.injEq] at h
      rw [← h.1]

theorem Fiber_cb_copy_outs {s s' : World} {a : NewArgs} (h : Fiber_cb s a = some s') :
    s'.copy_outs = s.copy_outs := by
  unfold Fiber_cb at h
  split at h
  · simp at h
  · split at h
    · simp at h
    · split at h
      · simp at h
      · simp only at h
        split at h
        · simp at h
        · simp only [Option.some.injEq] at h
          subst h
          simp only [World.setFiber]
          split <;> rfl

theorem own_construct {s s' : World} {a : NewArgs} (inv : OwnStackMem s)
    (h : Fiber_cb s a = some s') : OwnStackMem s' := by
  have hco := Fiber_cb_copy_outs h
  have hstep : step s (Op.construct a) = some s' := h
  have hfixed := step_fixed hstep
  obtain ⟨_, hfree, _, hm, _, _, _, _, _, hsm, f, hcore, _, _, hfib⟩ := Fiber_cb_spec h
  have c1 : f.core.cIsShareStack = a.share_stack := by rw [hcore]
  have c3 : f.core.stack_mem = if a.share_stack then a.m else a.raw.stack_mem := by rw [hcore]
  have hnew : s'.fibers a.p = some f := by rw [hfib]; simp
  cases hsh : a.share_stack with
  | false =>
    rw [hsh] at hsm c1
    simp only [Bool.false_eq_true, if_false] at hsm
    refine own_same inv (fun q g' hg' hs1 => ?_) hsm hco
    by_cases e : q = a.p
    · subst e
      rw [hnew] at hg'
      cases hg'
      rw [show f.cIsShareStack = false from c1] at hs1
      cases hs1
    · exact hfixed q g' hg' (by simp [constructed, Ne.symm e])
  | true =>
    rw [hsh] at hsm c1 c3
    simp only [if_true, co_alloc_stackmem, World.setStackMem] at hsm c3
    obtain ⟨_, hmfree, _⟩ := hm hsh
    obtain ⟨i1, i2, i3⟩ := inv
    have old : ∀ q g', s'.fibers q = some g' → q ≠ a.p → s.fibers q = some g' := by
      intro q g' hg' e
      rw [hfib] at hg'
      simpa [e] using hg'
    have oldne : ∀ q g, s.fibers q = some g → g.cIsShareStack = true → g.stack_mem ≠ a.m := by
      intro q g hg hs1 e
      obtain ⟨d, hd, _⟩ := i1 q g hg hs1
      rw [e, hmfree] at hd
      cases hd
    refine ⟨fun p g' hg' hs1 => ?_, fun p q f' g' hf' hg' hs1 hs2 he => ?_, by rw [hco]; exact i3⟩
    · rw [hsm]
      by_cases e : p = a.p
      · subst e
        rw [hnew] at hg'
        cases hg'
        rw [show f.stack_mem = a.m from c3]
        refine ⟨_, if_pos rfl, ?_⟩
        exact Or.inl rfl
      · have hg := old p g' hg' e
        have hne := oldne p g' hg hs1
        simp only [hne, if_false]
        exact i1 p g' hg hs1
    · by_cases e1 : p = a.p
      · by_cases e2 : q = a.p
        · rw [e1, e2]
        · exfalso
          subst e1
          rw [hnew] at hf'
          cases hf'
          have hg := old q g' hg' e2
          exact oldne q g' hg hs2 (he.symm.trans c3)
      · by_cases e2 : q = a.p
        · exfalso
          subst e2
          rw [hnew] at hg'
          cases hg'
          have hf := old p f' hf' e1
          exact oldne p f' hf hs1 (he.trans c3)
        · exact i2 p q f' g' (old p f' hf' e1) (old q g' hg' e2) hs1 hs2 he

theorem own_step {s s' : World} {o : Op} (inv : OwnStackMem s) (ho : o.switching)
    (h : step s o = some s') : OwnStackMem s' := by
  have hfixed := step_fixed h
  cases o with
  | GetThis p raw =>
    simp only [step] at h
    cases hg : GetThis s p raw with
    | none => simp [hg] at h
    | some r =>
      obtain ⟨s1, r1⟩ := r
      simp only [hg, Option.map_some', Option.some.injEq] at h
      subst h
      have hco := GetThis_copy_outs hg
      rcases GetThis_spec hg with ⟨_, rfl, _⟩ | ⟨h0, hp, hfree, _, _, _, _, _, _, hsm, f, hcore, hfib⟩
      · exact inv
      · refine own_same inv (fun q g' hg' hs1 => ?_) hsm hco
        by_cases e : q = p
        · subst e
          rw [hfib] at hg'
          simp only [if_true, Option.some.injEq] at hg'
          subst hg'
          have : f.core.cIsShareStack = false := by rw [hcore]
          rw [show f.cIsShareStack = false from this] at hs1
          cases hs1
        · exact hfixed q g' hg' (by simp [constructed, h0, Ne.symm e])
  | SetSchedulerFiber f => exact absurd ho (by simp [Op.switching])
  | construct a => exact own_construct inv h
  | resume p c =>
    simp only [step] at h
    obtain ⟨_, f, hf, _⟩ := resume_spec h
    obtain ⟨m1, m2⟩ := resume_stackmems h hf
    have hfix : ∀ q g', s'.fibers q = some g' → g'.cIsShareStack = true →
        ∃ g, s.fibers q = some g ∧ g'.core.fixed = g.core.fixed :=
      fun q g' hg' _ => hfixed q g' hg' (by simp [constructed])
    cases hsh : f.cIsShareStack with
    | false => exact own_same inv hfix (m1 hsh).1 (m1 hsh).2
    | true =>
      obtain ⟨d, hd, hm, hc⟩ := m2 hsh
      obtain ⟨d0, hd0, hocc⟩ := inv.1 p f hf hsh
      rw [hd] at hd0
      cases hd0
      exact own_update inv hfix hf hsh hm (hc (copyOutCond_false_of hocc))
  | yield p c =>
    simp only [step] at h
    obtain ⟨_, f, hf, _⟩ := yield_spec h
    obtain ⟨m1, m2⟩ := yield_stackmems h hf
    have hfix : ∀ q g', s'.fibers q = some g' → g'.cIsShareStack = true →
        ∃ g, s.fibers q = some g ∧ g'.core.fixed = g.core.fixed :=
      fun q g' hg' _ => hfixed q g' hg' (by simp [constructed])
    cases hsh : f.cIsShareStack with
    | false => exact own_same inv hfix (m1 hsh).1 (m1 hsh).2
    | true =>
      obtain ⟨tf, htf, n1, n2⟩ := m2 hsh
      cases hts : tf.cIsShareStack with
      | false => exact own_same inv hfix (n1 hts).1 (n1 hts).2
      | true =>
        obtain ⟨d, hd, hm, hc⟩ := n2 hts
        obtain ⟨d0, hd0, hocc⟩ := inv.1 _ tf htf hts
        rw [hd] at hd0
        cases hd0
        exact own_update inv hfix htf hts hm (hc (copyOutCond_false_of hocc))
  | MainFunc p raw c => exact absurd ho (by simp [Op.switching])
  | reset p cb => exact absurd ho (by simp [Op.switching])
  | destroy p => exact absurd ho (by simp [Op.switching])
  | co_swap_return =>
    simp only [step] at h
    obtain ⟨m1, m2⟩ := co_swap_post_stackmems h
    exact own_same inv (fun q g' hg' _ => hfixed q g' hg' (by simp [constructed])) m1 m2

theorem own_reach {s : World} (h : ReachBy Op.switching s) : OwnStackMem s := by
  induction h with
  | init =>
    exact ⟨fun p f hf => by simp [World.init] at hf,
      fun p q f g hf => by simp [World.init] at hf, rfl⟩
  | @step s s' o _ hok hstep ih => exact own_step ih hok hstep

/-- C10: the worker constructor gives every shared-stack fiber a freshly
allocated descriptor of its own, so in every state reached through `GetThis`,
construction, `resume` and `yield` no two shared-stack fibers have the same
descriptor and the occupant of a fiber's descriptor is null or that fiber;
hence the copy-out test of `co_swap` is false for every shared-stack fiber
about to take its stack, and `save_stack_buffer` has never been called, nor is
it called by the next `resume` or `yield`. -/
theorem C10_no_copy_out (s : World) (h : ReachBy Op.switching s) :
    (∀ p q f g, s.fibers p = some f → s.fibers q = some g → f.cIsShareStack = true →
      g.cIsShareStack = true → f.stack_mem = g.stack_mem → p = q) ∧
    (∀ p f, s.fibers p = some f → f.cIsShareStack = true →
      ∃ d, s.stackmems f.stack_mem = some d ∧ (d.occupy_co = 0 ∨ d.occupy_co = p) ∧
        copyOutCond d.occupy_co p = false) ∧
    s.copy_outs = 0 ∧
    (∀ p c s', resume s p c = some s' → s'.copy_outs = 0) ∧
    (∀ p c s', yield s p c = some s' → s'.copy_outs = 0) := by
  obtain ⟨i1, i2, i3⟩ := own_reach h
  refine ⟨i2, fun p f hf hsh => ?_, i3, fun p c s' hr => ?_, fun p c s' hy => ?_⟩
  · obtain ⟨d, hd, hocc⟩ := i1 p f hf hsh
    exact ⟨d, hd, hocc, copyOutCond_false_of hocc⟩
  · exact (own_reach (ReachBy.step (Op.resume p c) h trivial hr)).2.2
  · exact (own_reach (ReachBy.step (Op.yield p c) h trivial hy)).2.2

theorem pingPong_reach : ReachBy Op.switching (runD pingPongOps) :=
  ReachBy.step (Op.resume 2 9000)
    (ReachBy.step (Op.yield 3 200100)
      (ReachBy.step (Op.resume 3 9000)
        (ReachBy.step (Op.yield 2 4200)
          (ReachBy.step (Op.resume 2 9000)
            (ReachBy.step (Op.construct (sharedArgs 3 600 200000 0))
              (ReachBy.step (Op.construct (sharedArgs 2 500 4096 0))
                (ReachBy.step (Op.GetThis 1 rawFiber) ReachBy.init trivial rfl)
                trivial rfl)
              trivial rfl)
            trivial rfl)
          trivial rfl)
        trivial rfl)
      trivial rfl)
    trivial rfl

/-- C10 witness: two shared-stack workers resumed and suspended in turn; each
occupies its own descriptor and nothing was ever copied out. -/
theorem C10_no_copy_out_witness :
    (run World.init pingPongOps).isSome ∧ (runD pingPongOps).copy_outs = 0 ∧
    ((runD pingPongOps).stackmems 500).map (fun d => d.occupy_co) = some 2 ∧
    ((runD pingPongOps).stackmems 600).map (fun d => d.occupy_co) = some 3 :=
  ⟨rfl, (C10_no_copy_out (runD pingPongOps) pingPong_reach).2.2.1, rfl, rfl⟩

theorem memcpyOut_length (mem : Nat → Nat) (src n : Nat) : (memcpyOut mem src n).length = n := by
  simp [memcpyOut]

theorem memcpyOut_getD (mem : Nat → Nat) (src n i : Nat) (h : i < n) :
    (memcpyOut mem src n).getD i 0 = mem (src + i) := by
  simp [memcpyOut, List.getD_eq_getElem?_getD, h]

theorem save_stack_buffer_eq (s : World) (F : Ptr) (f : Fiber) (d : stStackMem_t)
    (hF : F ≠ 0) (hf : s.fibers F = some f) (hd : s.stackmems f.stack_mem = some d)
    (hle : f.stack_sp ≤ d.stack_bp) (hlt : d.stack_bp - f.stack_sp < 2147483648) :
    save_stack_buffer s F = some { s.setFiber F
        { f with
          save_buffer := some (memcpyOut s.mem f.stack_sp (d.stack_bp - f.stack_sp)),
          save_size := d.stack_bp - f.stack_sp } with
      copy_outs := s.copy_outs + 1 } := by
  have e1 : toI32 ((d.stack_bp : Int) - (f.stack_sp : Int)) = ((d.stack_bp - f.stack_sp : Nat) : Int) := by
    unfold toI32; omega
  have e2 : toU32 (d.stack_bp - f.stack_sp) = d.stack_bp - f.stack_sp := toU32_of_lt (by omega)
  unfold save_stack_buffer
  rw [if_neg hF]
  simp only [hf, hd, e1]
  rw [if_neg (by omega)]
  simp only [Int.toNat_ofNat, e2]

theorem co_swap_post_copy_in (s : World) (e o F : Ptr) (ef pf : Fiber) (buf : List Nat)
    (he : s.t_fiber = e) (he0 : e ≠ 0) (hef : s.fibers e = some ef)
    (hpend : ef.pending_co = F) (hocc : ef.occupy_co = o) (ho : o ≠ 0) (hF : F ≠ 0)
    (hne : o ≠ F) (hpf : s.fibers F = some pf) (hbuf : pf.save_buffer = some buf) :
    co_swap_post s = some (if pf.save_size > 0 then
      { s with mem := memcpyIn s.mem pf.stack_sp buf pf.save_size } else s) := by
  unfold co_swap_post
  simp only [he, if_neg he0, hef, hpend, hocc]
  rw [if_pos ⟨ho, hF, hne⟩]
  simp only [hpf, hbuf]
  split <;> rfl

/-- C5 (amended): for a shared-stack fiber `F` whose `stack_sp` lies in
`[stack_mem.buffer, stack_mem.bp]` with `stack_mem.bp - stack_sp < 2^31`,
`save_stack_buffer(F)` returns, sets `save_size = stack_mem.bp - stack_sp` and
`save_buffer` to a copy of those bytes starting at `stack_sp`; and in any later
state in which `F` still has these members, whatever memory holds, the part of
`co_swap` after the switch (pending `F`, occupant another non-null fiber)
returns and makes every byte in `[stack_sp, stack_mem.bp)` equal to its value
at the copy-out, leaving all other bytes as they were. -/
theorem C5_copy_round_trip (s : World) (F : Ptr) (f : Fiber) (d : stStackMem_t)
    (hF : F ≠ 0) (hf : s.fibers F = some f) (_hshared : f.cIsShareStack = true)
    (hd : s.stackmems f.stack_mem = some d) (_hlo : d.stack_buffer ≤ f.stack_sp)
    (hle : f.stack_sp ≤ d.stack_bp) (hlt : d.stack_bp - f.stack_sp < 2147483648) :
    ∃ s1 f1 buf, save_stack_buffer s F = some s1 ∧ s1.fibers F = some f1 ∧
      s1.mem = s.mem ∧ f1.stack_sp = f.stack_sp ∧
      f1.save_size = d.stack_bp - f.stack_sp ∧
      f1.save_buffer = some buf ∧ buf.length = f1.save_size ∧
      (∀ i, i < f1.save_size → buf.getD i 0 = s.mem (f.stack_sp + i)) ∧
      ∀ (s2 : World) (e o : Ptr) (ef : Fiber),
        s2.fibers F = some f1 → s2.t_fiber = e → e ≠ 0 → s2.fibers e = some ef →
        ef.pending_co = F → ef.occupy_co = o → o ≠ 0 → o ≠ F →
        ∃ s3, co_swap_post s2 = some s3 ∧
          (∀ a, f.stack_sp ≤ a → a < d.stack_bp → s3.mem a = s.mem a) ∧
          (∀ a, ¬ (f.stack_sp ≤ a ∧ a < d.stack_bp) → s3.mem a = s2.mem a) := by
  have hsave := save_stack_buffer_eq s F f d hF hf hd hle hlt
  refine ⟨_, { f with
      save_buffer := some (memcpyOut s.mem f.stack_sp (d.stack_bp - f.stack_sp)),
      save_size := d.stack_bp - f.stack_sp },
    memcpyOut s.mem f.stack_sp (d.stack_bp - f.stack_sp), hsave, ?_, rfl, rfl, rfl, rfl,
    memcpyOut_length _ _ _, fun i hi => memcpyOut_getD _ _ _ i hi, ?_⟩
  · simp [World.setFiber]
  · intro s2 e o ef hf1 he he0 hef hpend hocc ho hne
    have hpost := co_swap_post_copy_in s2 e o F ef _ _ he he0 hef hpend hocc ho hF hne hf1 rfl
    refine ⟨_, hpost, fun a h1 h2 => ?_, fun a hn => ?_⟩
    · have hpos : d.stack_bp - f.stack_sp > 0 := by omega
      simp only [hpos, if_true, memcpyIn]
      rw [if_pos ⟨h1, by omega⟩, memcpyOut_getD _ _ _ _ (by omega)]
      congr 1
      omega
    · by_cases hpos : d.stack_bp - f.stack_sp > 0
      · simp only [hpos, if_true, memcpyIn]
        rw [if_neg (fun hc => hn ⟨hc.1, by omega⟩)]
      · simp only [hpos, if_false]

/-- C5 witness: the suspended shared-stack worker of `suspendedWorld` has 96
live bytes; they are copied out. -/
theorem C5_copy_round_trip_witness :
    (fiberAt suspendedWorld 2).stack_sp = 132000 ∧
    (stackMemAt suspendedWorld 500).stack_bp = 132096 ∧
    ∃ s1 f1 buf, save_stack_buffer suspendedWorld 2 = some s1 ∧ s1.fibers 2 = some f1 ∧
      f1.save_size = 96 ∧ f1.save_buffer = some buf ∧ buf.length = 96 ∧
      buf.getD 0 0 = 132000 % 251 := by
  obtain ⟨s1, f1, buf, h1, h2, _, _, h5, h6, h7, h8, _⟩ :=
    C5_copy_round_trip suspendedWorld 2 (fiberAt suspendedWorld 2)
      (stackMemAt suspendedWorld 500) (by decide) rfl rfl rfl (by decide) (by decide)
      (by decide)
  have e : f1.save_size = 96 := h5
  exact ⟨rfl, rfl, s1, f1, buf, h1, h2, e, h6, by rw [h7, e], by rw [h8 0 (by rw [e]; decide)]; rfl⟩

/-- C5 counterexample: a shared-stack worker built with
`stacksize = 3000000000` yields with 2500000000 bytes of live stack.  Its
`stack_sp` lies inside its stack, yet `save_stack_buffer` does not return: the
length does not fit the `int len`. -/
theorem C5_counterexample :
    (run World.init hugeStackOps).isSome ∧
    (fiberAt (runD hugeStackOps) 2).cIsShareStack = true ∧
    (runD hugeStackOps).stackmems (fiberAt (runD hugeStackOps) 2).stack_mem =
      some (stackMemAt (runD hugeStackOps) 500) ∧
    (stackMemAt (runD hugeStackOps) 500).stack_buffer ≤ (fiberAt (runD hugeStackOps) 2).stack_sp ∧
    (fiberAt (runD hugeStackOps) 2).stack_sp ≤ (stackMemAt (runD hugeStackOps) 500).stack_bp ∧
    (stackMemAt (runD hugeStackOps) 500).stack_bp - (fiberAt (runD hugeStackOps) 2).stack_sp =
      2500000000 ∧
    save_stack_buffer (runD hugeStackOps) 2 = none :=
  ⟨rfl, rfl, rfl, by decide, by decide, by decide, rfl⟩

end sylar
